import Mathlib

namespace LlmDocs

/-!
Verification of the corpus build / validation pipeline (tools/build_corpus.py and
tools/validate_docs.py) against its natural-language specification.

Strings are modelled as `List Char` (Python `str`), lines as `List Char`
produced by a model of `str.splitlines(keepends=True)`.  The regular
expressions of the source are modelled by executable functions that follow
the semantics of Python's `re` module (leftmost match, greedy / lazy
backtracking) for the fixed patterns appearing in the source.
-/

deriving instance DecidableEq for Except

/-- A single line of text (possibly carrying its trailing line-break). -/
abbrev Line := List Char

/-- The characters matched by Python's `\s` on `str` and stripped by
`str.strip()`: ASCII whitespace, the C0 separator controls, and the Unicode
space characters. -/
def pySpaceChars : List Char :=
  [' ', '\t', '\n', '\r', Char.ofNat 0x0b, Char.ofNat 0x0c,
   Char.ofNat 0x1c, Char.ofNat 0x1d, Char.ofNat 0x1e, Char.ofNat 0x1f,
   Char.ofNat 0x85, Char.ofNat 0xa0, Char.ofNat 0x1680,
   Char.ofNat 0x2000, Char.ofNat 0x2001, Char.ofNat 0x2002, Char.ofNat 0x2003,
   Char.ofNat 0x2004, Char.ofNat 0x2005, Char.ofNat 0x2006, Char.ofNat 0x2007,
   Char.ofNat 0x2008, Char.ofNat 0x2009, Char.ofNat 0x200a,
   Char.ofNat 0x2028, Char.ofNat 0x2029, Char.ofNat 0x202f,
   Char.ofNat 0x205f, Char.ofNat 0x3000]

/-- Python whitespace test (`\s`, `str.strip`, `str.isspace`). -/
def isPySpace (c : Char) : Bool := pySpaceChars.contains c

/-- The line-boundary characters of `str.splitlines` (note: `\x1f` is Python
whitespace but not a `splitlines` boundary). -/
def lineBoundaryChars : List Char :=
  ['\n', '\r', Char.ofNat 0x0b, Char.ofNat 0x0c,
   Char.ofNat 0x1c, Char.ofNat 0x1d, Char.ofNat 0x1e,
   Char.ofNat 0x85, Char.ofNat 0x2028, Char.ofNat 0x2029]

/-- Is `c` a `str.splitlines` line boundary? -/
def isLineBoundary (c : Char) : Bool := lineBoundaryChars.contains c

/-- Worker for `splitlinesKeepends`; `acc` holds the current (reversed)
partial line.  `\r\n` counts as a single boundary. -/
def splitlinesAux : List Char → List Char → List (List Char)
  | [], acc => if acc.isEmpty then [] else [acc.reverse]
  | '\r' :: '\n' :: rest, acc => (acc.reverse ++ ['\r', '\n']) :: splitlinesAux rest []
  | c :: rest, acc =>
    if isLineBoundary c then (acc.reverse ++ [c]) :: splitlinesAux rest []
    else splitlinesAux rest (c :: acc)

/-- Model of Python `str.splitlines(keepends=True)`. -/
def splitlinesKeepends (s : List Char) : List (List Char) := splitlinesAux s []

/-- Python `str.strip()`: drop Python whitespace from both ends. -/
def pyStrip (s : List Char) : List Char :=
  (s.dropWhile isPySpace).rdropWhile isPySpace

/-! ## Fence Scanner (`split_code_fence_regions_lines`, build_corpus.py:53-87) -/

/-- The two fence delimiter styles of the source (` ``` ` and `~~~`). -/
inductive Delim where
  | backtick
  | tilde
deriving DecidableEq, Repr

/-- The backquote character (code 96). -/
def backquote : Char := Char.ofNat 96

/-- Model of `re.match(r"^(\s*)(```|~~~)", line)`: after the maximal leading
whitespace run the line must begin with three backquotes or three tildes
(backtracking inside `\s*` cannot help since neither delimiter character is
whitespace).  Returns the matched delimiter (`m.group(2)`). -/
def matchFenceDelim (line : Line) : Option Delim :=
  match line.dropWhile isPySpace with
  | c1 :: c2 :: c3 :: _ =>
    if c1 = backquote ∧ c2 = backquote ∧ c3 = backquote then some .backtick
    else if c1 = '~' ∧ c2 = '~' ∧ c3 = '~' then some .tilde
    else none
  | _ => none

/-- The mutable state of the Python scanner loop: `in_fence`, `fence_delim`
and the pending buffer `buf`. -/
structure ScanState where
  in_fence : Bool
  fence_delim : Option Delim
  buf : List Line
deriving Repr, DecidableEq

/-- The `flush()` closure of the source: emit the pending buffer (tagged with
the current `in_fence`) unless it is empty. -/
def flushOut (st : ScanState) : List (Bool × List Line) :=
  if st.buf.isEmpty then [] else [(st.in_fence, st.buf)]

/-- One iteration of the scanner's `for line in lines` loop: returns the new
state and the regions emitted by this iteration. -/
def scanStep (st : ScanState) (line : Line) : ScanState × List (Bool × List Line) :=
  match matchFenceDelim line with
  | none => ({ st with buf := st.buf ++ [line] }, [])
  | some d =>
    let emitted := flushOut st ++ [(true, [line])]
    if st.in_fence then
      if st.fence_delim = some d then (⟨false, none, []⟩, emitted)
      else (⟨true, st.fence_delim, []⟩, emitted)
    else (⟨true, some d, []⟩, emitted)

/-- Run the scanner loop from state `st`, including the final `flush()`. -/
def scanLines (st : ScanState) : List Line → List (Bool × List Line)
  | [] => flushOut st
  | l :: ls => (scanStep st l).2 ++ scanLines (scanStep st l).1 ls

/-- The initial scanner state (`in_fence = False`, `fence_delim = None`,
`buf = []`). -/
def initScan : ScanState := ⟨false, none, []⟩

/-- `split_code_fence_regions_lines` of build_corpus.py: split lines into
`(in_code_fence, lines)` regions. -/
def split_code_fence_regions_lines (lines : List Line) : List (Bool × List Line) :=
  scanLines initScan lines

/-- The state reached after feeding `ls` to the scanner (no output). -/
def scanStateAfter (st : ScanState) (ls : List Line) : ScanState :=
  ls.foldl (fun s l => (scanStep s l).1) st

/-- The regions emitted while feeding `ls` (without the final flush). -/
def scanEmit (st : ScanState) : List Line → List (Bool × List Line)
  | [] => []
  | l :: ls => (scanStep st l).2 ++ scanEmit (scanStep st l).1 ls

/-- The per-line literal/prose classification induced by a region list: one
Boolean per contained line. -/
def regionFlags (out : List (Bool × List Line)) : List Bool :=
  (out.map (fun g => g.2.map (fun _ => g.1))).flatten

/-! ## slugify (build_corpus.py:47-51) -/

/-- Is `c` in the surviving class `[a-z0-9]` of the first `re.sub`? -/
def isSlugChar (c : Char) : Bool :=
  (97 ≤ c.toNat ∧ c.toNat ≤ 122) ∨ (48 ≤ c.toNat ∧ c.toNat ≤ 57)

/-- Python `str.lower()` on the ASCII range (the only case mapping that can
produce a surviving `[a-z0-9]` character from an ASCII document). -/
def pyLower (c : Char) : Char :=
  if 65 ≤ c.toNat ∧ c.toNat ≤ 90 then Char.ofNat (c.toNat + 32) else c

/-- `re.sub(r"[^a-z0-9]+", "-", s)`: replace each maximal run of
non-`[a-z0-9]` characters by a single hyphen.  The flag records whether we
are inside such a run. -/
def subNonAlnumAux : Bool → List Char → List Char
  | _, [] => []
  | inRun, c :: rest =>
    if isSlugChar c then c :: subNonAlnumAux false rest
    else if inRun then subNonAlnumAux true rest
    else '-' :: subNonAlnumAux true rest

/-- `re.sub(r"-{2,}", "-", s)`: collapse each hyphen run to a single hyphen
(a run of length one is already a single hyphen). -/
def collapseHyphensAux : Bool → List Char → List Char
  | _, [] => []
  | prevHyph, c :: rest =>
    if c = '-' then
      if prevHyph then collapseHyphensAux true rest
      else '-' :: collapseHyphensAux true rest
    else c :: collapseHyphensAux false rest

/-- Hyphen test, as a Boolean predicate. -/
def isHyphen (c : Char) : Bool := c = '-'

/-- `str.strip("-")`: drop hyphens from both ends. -/
def stripHyphens (s : List Char) : List Char :=
  (s.dropWhile isHyphen).rdropWhile isHyphen

/-- The fallback slug `"root"`. -/
def rootSlug : List Char := ['r', 'o', 'o', 't']

/-- `slugify` of build_corpus.py: strip, lower, collapse non-alphanumerics to
hyphens, collapse hyphen runs, strip hyphens, default to `"root"`. -/
def slugify (s : List Char) : List Char :=
  let s1 := (pyStrip s).map pyLower
  let s2 := subNonAlnumAux false s1
  let s3 := stripHyphens (collapseHyphensAux false s2)
  if s3 = [] then rootSlug else s3

/-- The shape of every slug: non-empty, over `[a-z0-9-]`, no two adjacent
hyphens, no leading or trailing hyphen. -/
def SlugShape (l : List Char) : Prop :=
  l ≠ [] ∧ (∀ c ∈ l, isSlugChar c = true ∨ c = '-')
    ∧ l.Chain' (fun a b => ¬(a = '-' ∧ b = '-'))
    ∧ l.head? ≠ some '-' ∧ l.getLast? ≠ some '-'

/-! ### slugify lemmas -/

/-- The no-adjacent-hyphens relation. -/
def NoTwoHyph (a b : Char) : Prop := ¬(a = '-' ∧ b = '-')

/-! ## Section Segmenter (`split_into_h2_sections`, build_corpus.py:124-160)

The heading test is `re.match(r"^\s*##\s+(.+?)\s*$", line)`.  Its semantics:
after the maximal whitespace run the line must continue with exactly two
`#` (a third `#` makes `\s+` fail), then the engine tries the `\s+` width
`t` greedily (largest first) and, inside each, the lazy group `(.+?)`
shortest-first; `\s*$` succeeds exactly when the remaining characters are
all whitespace (a trailing newline is itself whitespace).  `matchH2` below
implements this backtracking search literally. -/

/-- The lazy `(.+?)\s*$` step: the shortest non-empty newline-free
group `b` such that everything after `b` is whitespace. -/
def lazyDot : List Char → Option (List Char)
  | [] => none
  | c :: rest =>
    if c = '\n' then none
    else if rest.all isPySpace then some [c]
    else
      match lazyDot rest with
      | some b => some (c :: b)
      | none => none

/-- Try the `\s+` width `t`, largest first (greedy with backtracking). -/
def h2TryT (rest2 : List Char) : Nat → Option (List Char)
  | 0 => none
  | t + 1 =>
    match lazyDot (rest2.drop (t + 1)) with
    | some b => some b
    | none => h2TryT rest2 t

/-- Model of `re.match(r"^\s*##\s+(.+?)\s*$", line)`, returning `m.group(1)`. -/
def matchH2 (l : Line) : Option (List Char) :=
  match l.dropWhile isPySpace with
  | c1 :: c2 :: rest2 =>
    if c1 = '#' ∧ c2 = '#' then h2TryT rest2 ((rest2.takeWhile isPySpace).length)
    else none
  | _ => none

/-- A section of the document (title, slug, constituent lines). -/
structure Section where
  h2_title : List Char
  h2_slug : List Char
  lines : List Line
deriving Repr, DecidableEq

/-- The per-line view of the fence scanner's region list: each line tagged
with its region's `in_code` flag, in order.  The Python loops iterate the
regions and then the lines inside each region; this flattening performs the
same sequence of per-line steps. -/
def taggedLines (lines : List Line) : List (Bool × Line) :=
  ((split_code_fence_regions_lines lines).map
    (fun g => g.2.map (fun l => (g.1, l)))).flatten

/-- The section accumulator (`current_title`, `current_slug`,
`current_lines`). -/
structure SecState where
  title : List Char
  slug : List Char
  cur : List Line
deriving Repr, DecidableEq

/-- The section loop: literal lines are appended unconditionally; prose
lines are tested with `matchH2`; a match pushes the current section and
starts a fresh one whose first line is the heading line; the final `push()`
always appends the open section. -/
def sectionScan : SecState → List (Bool × Line) → List Section
  | st, [] => [⟨st.title, st.slug, st.cur⟩]
  | st, (inCode, l) :: rest =>
    if inCode then sectionScan ⟨st.title, st.slug, st.cur ++ [l]⟩ rest
    else
      match matchH2 l with
      | some g =>
        ⟨st.title, st.slug, st.cur⟩ ::
          sectionScan ⟨pyStrip g, slugify (pyStrip g), [l]⟩ rest
      | none => sectionScan ⟨st.title, st.slug, st.cur ++ [l]⟩ rest

/-- `split_into_h2_sections` applied to an already-split line list. -/
def split_into_h2_sections_lines (lines : List Line) : List Section :=
  sectionScan ⟨rootSlug, rootSlug, []⟩ (taggedLines lines)

/-- `split_into_h2_sections` of build_corpus.py. -/
def split_into_h2_sections (body : List Char) : List Section :=
  split_into_h2_sections_lines (splitlinesKeepends body)

/-! ## Paragraph Segmenter (`split_section_into_paragraphs`,
build_corpus.py:162-192) -/

/-- The paragraph `flush()`: join the buffer, strip, keep if non-empty,
normalize to a single trailing line break. -/
def flushPara (buf : List Line) : List (List Char) :=
  let text := pyStrip buf.flatten
  if text = [] then [] else [text ++ ['\n']]

/-- The paragraph loop: literal lines extend the buffer; blank prose lines
flush; other prose lines extend the buffer; final flush at end. -/
def paraScan : List Line → List (Bool × Line) → List (List Char)
  | buf, [] => flushPara buf
  | buf, (inCode, l) :: rest =>
    if inCode then paraScan (buf ++ [l]) rest
    else if pyStrip l = [] then flushPara buf ++ paraScan [] rest
    else paraScan (buf ++ [l]) rest

/-- `split_section_into_paragraphs` of build_corpus.py. -/
def split_section_into_paragraphs (lines : List Line) : List (List Char) :=
  paraScan [] (taggedLines lines)

/-! ## Chunk Identity Assigner (build_corpus.py:230-252) -/

/-- Python `f"{i:04d}"` for a non-negative index: decimal digits, padded
with zeros to width four (wider numbers print in full). -/
def pad4 (n : Nat) : List Char :=
  let s := Nat.toDigits 10 n
  List.replicate (4 - s.length) '0' ++ s

/-- The chunk ID scheme: `{doc_id}#h2:{slug}#p:{i:04d}`. -/
def chunkId (docId slug : List Char) (i : Nat) : List Char :=
  docId ++ ['#', 'h', '2', ':'] ++ slug ++ ['#', 'p', ':'] ++ pad4 i

/-- The per-document chunk emission of `main` (build_corpus.py:230-252),
projected to `(chunk_id, content)`: sections in order, paragraphs
enumerated from 1 inside each section. -/
def chunksForDoc (docId : List Char) (body : List Char) :
    List (List Char × List Char) :=
  ((split_into_h2_sections body).map (fun sec =>
    (split_section_into_paragraphs sec.lines).enum.map
      (fun ip => (chunkId docId sec.h2_slug (ip.1 + 1), ip.2)))).flatten

/-! ### Per-line classification view of the fence scanner -/

/-- The `(in_fence, fence_delim)` transition of the scanner, per line. -/
def fenceNext (s : Bool × Option Delim) (l : Line) : Bool × Option Delim :=
  match matchFenceDelim l with
  | none => s
  | some d =>
    if s.1 then
      if s.2 = some d then (false, none) else s
    else (true, some d)

/-- The literal/prose flag a line receives: delimiter lines are always
literal, other lines take the current `in_fence`. -/
def lineFlag (s : Bool × Option Delim) (l : Line) : Bool :=
  match matchFenceDelim l with
  | none => s.1
  | some _ => true

/-- Tag every line with its flag, threading the fence state. -/
def flagScan (s : Bool × Option Delim) : List Line → List (Bool × Line)
  | [] => []
  | l :: ls => (lineFlag s l, l) :: flagScan (fenceNext s l) ls

/-! ### Section and paragraph segmentation lemmas -/

/-- A tagged line that starts a new section: a prose line matching the
heading pattern. -/
def startsSection (bl : Bool × Line) : Bool :=
  !bl.1 && (matchH2 bl.2).isSome

/-- The paragraph buffer after consuming a tagged-line list. -/
def paraBufAfter : List Line → List (Bool × Line) → List Line
  | buf, [] => buf
  | buf, (inCode, l) :: rest =>
    if inCode then paraBufAfter (buf ++ [l]) rest
    else if pyStrip l = [] then paraBufAfter [] rest
    else paraBufAfter (buf ++ [l]) rest

/-- The paragraphs emitted while consuming a tagged-line list (without the
final flush). -/
def paraOut : List Line → List (Bool × Line) → List (List Char)
  | _, [] => []
  | buf, (inCode, l) :: rest =>
    if inCode then paraOut (buf ++ [l]) rest
    else if pyStrip l = [] then flushPara buf ++ paraOut [] rest
    else paraOut (buf ++ [l]) rest

/-- The corrected heading condition (what
`re.match(r"^\s*##\s+(.+?)\s*$", line)` actually accepts): optional leading
whitespace, exactly two markers, at least one whitespace character, at
least one non-newline character, then only whitespace to the end of the
line.  The "text" may itself be whitespace, so a line such as `"##  \n"`
is accepted (with a group that strips to the empty string). -/
def AmendedH2 (l : Line) : Prop :=
  ∃ w a b c, l = w ++ ['#', '#'] ++ (a ++ b ++ c)
    ∧ (∀ x ∈ w, isPySpace x = true)
    ∧ a ≠ [] ∧ (∀ x ∈ a, isPySpace x = true)
    ∧ b ≠ [] ∧ '\n' ∉ b
    ∧ (∀ x ∈ c, isPySpace x = true)

/-! ## sha256_hex (build_corpus.py:44-45)

`hashlib.sha256(s.encode("utf-8")).hexdigest()`, modelled bit-faithfully:
UTF-8 encoding of the text, then FIPS 180-4 SHA-256 over the byte string,
with 32-bit words as `Nat` reduced modulo `2^32`. -/

/-- UTF-8 encoding of one code point. -/
def utf8Bytes (c : Char) : List Nat :=
  let n := c.toNat
  if n < 0x80 then [n]
  else if n < 0x800 then [0xc0 + n / 64, 0x80 + n % 64]
  else if n < 0x10000 then
    [0xe0 + n / 4096, 0x80 + (n / 64) % 64, 0x80 + n % 64]
  else
    [0xf0 + n / 262144, 0x80 + (n / 4096) % 64, 0x80 + (n / 64) % 64,
     0x80 + n % 64]

/-- `s.encode("utf-8")` as a byte list. -/
def strBytes (s : List Char) : List Nat := (s.map utf8Bytes).flatten

/-- Truncate to a 32-bit word. -/
def w32 (n : Nat) : Nat := n % 4294967296

/-- Right rotation of a 32-bit word. -/
def rotr (k n : Nat) : Nat := w32 ((n >>> k) ||| (n <<< (32 - k)))

/-- The SHA-256 round constants. -/
def sha256K : List Nat :=
  [1116352408, 1899447441, 3049323471, 3921009573, 961987163, 1508970993,
   2453635748, 2870763221, 3624381080, 310598401, 607225278, 1426881987,
   1925078388, 2162078206, 2614888103, 3248222580, 3835390401, 4022224774,
   264347078, 604807628, 770255983, 1249150122, 1555081692, 1996064986,
   2554220882, 2821834349, 2952996808, 3210313671, 3336571891, 3584528711,
   113926993, 338241895, 666307205, 773529912, 1294757372, 1396182291,
   1695183700, 1986661051, 2177026350, 2456956037, 2730485921, 2820302411,
   3259730800, 3345764771, 3516065817, 3600352804, 4094571909, 275423344,
   430227734, 506948616, 659060556, 883997877, 958139571, 1322822218,
   1537002063, 1747873779, 1955562222, 2024104815, 2227730452, 2361852424,
   2428436474, 2756734187, 3204031479, 3329325298]

/-- The initial SHA-256 hash state. -/
def sha256H0 : List Nat :=
  [1779033703, 3144134277, 1013904242, 2773480762,
   1359893119, 2600822924, 528734635, 1541459225]

/-- `k` bytes of `n`, big-endian. -/
def beBytes : Nat → Nat → List Nat
  | 0, _ => []
  | k + 1, n => beBytes k (n / 256) ++ [n % 256]

/-- SHA-256 padding: `0x80`, zeros, and the 64-bit bit length. -/
def sha256Pad (m : List Nat) : List Nat :=
  let L := m.length
  m ++ [0x80] ++ List.replicate ((64 - ((L + 9) % 64)) % 64) 0
    ++ beBytes 8 (L * 8)

/-- Big-endian 32-bit words from bytes. -/
def bytesToWords : List Nat → List Nat
  | b0 :: b1 :: b2 :: b3 :: rest =>
    (((b0 * 256 + b1) * 256 + b2) * 256 + b3) :: bytesToWords rest
  | _ => []

/-- Split into 64-byte blocks (fuel keeps the recursion structural). -/
def chunks64Fuel : Nat → List Nat → List (List Nat)
  | 0, _ => []
  | _, [] => []
  | fuel + 1, l => l.take 64 :: chunks64Fuel fuel (l.drop 64)

/-- The SHA-256 message schedule, extending 16 words to 64. -/
def sha256Extend : Nat → List Nat → List Nat
  | 0, w => w.reverse
  | fuel + 1, w =>
    let g := fun (i : Nat) => w.getD i 0
    let w15 := g 14
    let w2 := g 1
    let s0 := (rotr 7 w15) ^^^ (rotr 18 w15) ^^^ (w15 >>> 3)
    let s1 := (rotr 17 w2) ^^^ (rotr 19 w2) ^^^ (w2 >>> 10)
    sha256Extend fuel (w32 (g 15 + s0 + g 6 + s1) :: w)

/-- One SHA-256 compression round. -/
def sha256Round (st : List Nat) (kw : Nat × Nat) : List Nat :=
  match st with
  | [a, b, c, d, e, f, g, h] =>
    let S1 := (rotr 6 e) ^^^ (rotr 11 e) ^^^ (rotr 25 e)
    let ch := (e &&& f) ^^^ ((4294967295 - e) &&& g)
    let temp1 := w32 (h + S1 + ch + kw.1 + kw.2)
    let S0 := (rotr 2 a) ^^^ (rotr 13 a) ^^^ (rotr 22 a)
    let maj := (a &&& b) ^^^ (a &&& c) ^^^ (b &&& c)
    let temp2 := w32 (S0 + maj)
    [w32 (temp1 + temp2), a, b, c, w32 (d + temp1), e, f, g]
  | other => other

/-- Process one 64-byte block. -/
def sha256Block (h : List Nat) (block : List Nat) : List Nat :=
  let w16 := bytesToWords block
  let w := sha256Extend 48 w16.reverse
  let st := (sha256K.zip w).foldl sha256Round h
  (h.zip st).map (fun p => w32 (p.1 + p.2))

/-- The SHA-256 digest (eight 32-bit words) of a byte string. -/
def sha256Words (m : List Nat) : List Nat :=
  let padded := sha256Pad m
  (chunks64Fuel padded.length padded).foldl sha256Block sha256H0

/-- A lowercase hexadecimal digit. -/
def hexDigit (n : Nat) : Char :=
  if n < 10 then Char.ofNat (48 + n) else Char.ofNat (87 + n)

/-- `k` hex digits of `n`, big-endian. -/
def hexNat : Nat → Nat → List Char
  | 0, _ => []
  | k + 1, n => hexNat k (n / 16) ++ [hexDigit (n % 16)]

/-- `sha256_hex` of build_corpus.py. -/
def sha256_hex (s : List Char) : List Char :=
  ((sha256Words (strBytes s)).map (hexNat 8)).flatten

/-! ## Metadata Parser (`parse_doc`, build_corpus.py:95-102 and
validate_docs.py:89-100)

`RE_FRONT_MATTER = re.compile(r"^---\s*\n(.*?)\n---\s*\n", re.DOTALL)`.
The functions below implement the engine's search order for this fixed
pattern: the opening `\s*\n` is tried greedily (consuming through the last
newline of the leading whitespace run) and backtracks outward; the lazy
group stops at the first closing `\n---\s*\n`, whose own `\s*\n` is
greedy. -/

/-- Consume `\s*\n` greedily: drop through the last newline of the leading
whitespace run, if any. -/
def afterNlRun : List Char → Option (List Char)
  | [] => none
  | c :: rest =>
    if isPySpace c = false then none
    else
      match afterNlRun rest with
      | some r => some r
      | none => if c = '\n' then some rest else none

/-- The candidate resumption points for the opening `\s*\n`, greediest
(deepest newline) first. -/
def nlCandidates : List Char → List (List Char)
  | [] => []
  | c :: rest =>
    if isPySpace c = false then []
    else nlCandidates rest ++ (if c = '\n' then [rest] else [])

/-- Lazy scan for the closing `\n---\s*\n`; returns the group text and the
text after the match. -/
def scanClose : List Char → Option (List Char × List Char)
  | [] => none
  | c :: rest =>
    match (if c = '\n' then
        match rest with
        | '-' :: '-' :: '-' :: t2 => afterNlRun t2
        | _ => none
      else none) with
    | some aft => some ([], aft)
    | none => (scanClose rest).map (fun p => (c :: p.1, p.2))

/-- Try each opening candidate in order. -/
def fmTryCandidates : List (List Char) → Option (List Char × List Char)
  | [] => none
  | cand :: rest =>
    match scanClose cand with
    | some r => some r
    | none => fmTryCandidates rest

/-- `RE_FRONT_MATTER.match(raw)`: `(m.group(1), raw[m.end():])` on success. -/
def frontMatterMatch (raw : List Char) : Option (List Char × List Char) :=
  match raw with
  | '-' :: '-' :: '-' :: t => fmTryCandidates (nlCandidates t)
  | _ => none

/-! ## Decoded metadata values

The YAML decoder是 an external library; it is modelled as a parameter
`yamlLoad` producing a mapping from string keys to values.  Values are
modelled as strings, lists of strings (the shape of `tags`), or null —
the shapes the documents' metadata uses. -/

/-- A decoded YAML value. -/
inductive Yaml where
  | str (s : List Char)
  | listStr (items : List (List Char))
  | null
deriving DecidableEq, Repr

/-- A decoded metadata mapping (insertion-ordered, unique keys). -/
abbrev Fm := List (List Char × Yaml)

/-- `fm.get(k)`: the first binding of `k`, if any. -/
def fmGet (fm : Fm) (k : List Char) : Option Yaml :=
  (fm.find? (fun p => p.1 = k)).map Prod.snd

/-- Python truthiness of a decoded value. -/
def yamlTruthy : Yaml → Bool
  | .str s => s ≠ []
  | .listStr items => items ≠ []
  | .null => false

/-- Interpose `sep` between the elements of `xs` and concatenate. -/
def joinSep (sep : List Char) : List (List Char) → List Char
  | [] => []
  | [x] => x
  | x :: y :: rest => x ++ sep ++ joinSep sep (y :: rest)

/-- Python `str()` of a decoded value (strings render as themselves; lists
render in `repr` style; `None` renders as `"None"`). -/
def pyStr : Yaml → List Char
  | .str s => s
  | .listStr items =>
    '[' :: joinSep (", ".data) (items.map (fun s => '\'' :: (s ++ ['\'']))) ++ [']']
  | .null => "None".data

/-- The type of the modelled external YAML decoder: front-matter text to a
decode error, a falsy value (`none`, treated as `{}` by `or {}`), or a
mapping. -/
abbrev YamlLoad := List Char → Except (List Char) (Option Fm)

/-- The uncaught exceptions the modelled runs can abort with: `parse_doc`'s
`ValueError`, a YAML decode error propagating uncaught, a `KeyError` from a
missing front-matter field (build), the `TypeError` raised by hashing an
unhashable (list) value in a set or dict membership test, and the
`AttributeError` raised by calling `.strip()` on a non-string (validator). -/
inductive PyErr where
  | valueError (msg : List Char)
  | yamlError (msg : List Char)
  | keyError (key : List Char)
  | typeError
  | attributeError
deriving DecidableEq, Repr

/-- `parse_doc` of build_corpus.py: front-matter match (else
`ValueError("Missing YAML front matter.")`), YAML decode (errors propagate
uncaught), `or {}` for falsy decodes; returns the mapping and the body. -/
def parse_doc (yamlLoad : YamlLoad) (raw : List Char) :
    Except PyErr (Fm × List Char) :=
  match frontMatterMatch raw with
  | none => .error (.valueError ("Missing YAML front matter.".data))
  | some (fmText, body) =>
    match yamlLoad fmText with
    | .error e => .error (.yamlError e)
    | .ok none => .ok ([], body)
    | .ok (some fm) => .ok (fm, body)

/-! ## Document tree traversal (`iter_docs`, build_corpus.py:104-110)

A document is a path (segments relative to the repository root) plus raw
text.  `sorted(docs_root.rglob("*.md"))` orders paths by their segment
tuples (each segment compared as a code-point string). -/

/-- An on-disk markdown file: its path segments and raw contents. -/
structure RawDoc where
  path : List (List Char)
  raw : List Char
deriving DecidableEq, Repr

/-- Code-point lexicographic strict order on strings. -/
def charListLt : List Char → List Char → Bool
  | [], [] => false
  | [], _ :: _ => true
  | _ :: _, [] => false
  | a :: as, b :: bs =>
    if a.toNat < b.toNat then true
    else if b.toNat < a.toNat then false
    else charListLt as bs

/-- Code-point lexicographic order (reflexive). -/
def charListLe : List Char → List Char → Bool
  | [], _ => true
  | _ :: _, [] => false
  | a :: as, b :: bs =>
    if a.toNat < b.toNat then true
    else if b.toNat < a.toNat then false
    else charListLe as bs

/-- Lexicographic order on segment paths (Python path-tuple comparison). -/
def segListLe : List (List Char) → List (List Char) → Bool
  | [], _ => true
  | _ :: _, [] => false
  | a :: as, b :: bs =>
    if charListLt a b then true
    else if charListLt b a then false
    else segListLe as bs

/-- The path order used by `sorted(docs_root.rglob("*.md"))`. -/
def pathLe (d1 d2 : RawDoc) : Prop := segListLe d1.path d2.path = true

instance : DecidableRel pathLe := fun d1 d2 => by
  rw [pathLe]; infer_instance

/-- `EXCLUDED_DIRS` of build_corpus.py. -/
def EXCLUDED_DIRS : List (List Char) :=
  ["_drafts".data, "_templates".data, "_deprecated".data]

/-- Does a path segment begin with the hidden-file marker? -/
def hiddenSeg (seg : List Char) : Bool :=
  match seg with
  | c :: _ => c = '.'
  | [] => false

/-- The path-based exclusion of `iter_docs`: a hidden segment or a reserved
directory name anywhere in the path. -/
def pathExcluded (p : List (List Char)) : Bool :=
  p.any hiddenSeg || p.any (fun seg => EXCLUDED_DIRS.contains seg)

/-- `iter_docs`: sorted traversal, path-based exclusion. -/
def iter_docs (files : List RawDoc) : List RawDoc :=
  (List.insertionSort pathLe files).filter (fun d => !pathExcluded d.path)

/-! ## extract_h1_title (build_corpus.py:112-116) -/

/-- `str.splitlines()` without keepends. -/
def splitlinesNoKeepAux : List Char → List Char → List (List Char)
  | [], acc => if acc.isEmpty then [] else [acc.reverse]
  | '\r' :: '\n' :: rest, acc => acc.reverse :: splitlinesNoKeepAux rest []
  | c :: rest, acc =>
    if isLineBoundary c then acc.reverse :: splitlinesNoKeepAux rest []
    else splitlinesNoKeepAux rest (c :: acc)

/-- Model of Python `str.splitlines()`. -/
def splitlinesNoKeep (s : List Char) : List (List Char) :=
  splitlinesNoKeepAux s []

/-- `re.match(r"^\s*#\s+\S+", line)` together with
`re.sub(r"^\s*#\s+", "", line).strip()`: a single marker followed by
whitespace and non-whitespace text yields the text after the marker run,
stripped. -/
def matchH1 (l : Line) : Option (List Char) :=
  match l.dropWhile isPySpace with
  | '#' :: c :: r =>
    if isPySpace c = true ∧ (c :: r).dropWhile isPySpace ≠ [] then
      some (pyStrip ((c :: r).dropWhile isPySpace))
    else none
  | _ => none

/-- `extract_h1_title` of build_corpus.py. -/
def extract_h1_title (body : List Char) : Option (List Char) :=
  (splitlinesNoKeep body).findSome? matchH1

/-! ## Corpus Builder (`main`, build_corpus.py:194-300) -/

/-- One corpus export record (`rec`, build_corpus.py:235-250). -/
structure ChunkRec where
  corpus_version : List Char
  doc_id : Yaml
  chunk_id : List Char
  source_path : List (List Char)
  title : Yaml
  domain : Yaml
  status : Yaml
  audience : Yaml
  tags : Yaml
  heading_path : List Yaml
  content_type : List Char
  content : List Char
  sha256 : List Char
  char_count : Nat
deriving DecidableEq, Repr

/-- One document index entry (build_corpus.py:255-266). -/
structure IndexEntry where
  doc_id : Yaml
  title : Yaml
  domain : Yaml
  status : Yaml
  audience : Yaml
  tags : Yaml
  source_path : List (List Char)
  body_sha256 : List Char
  char_count : Nat
  chunk_count : Nat
deriving DecidableEq, Repr

/-- The build manifest (build_corpus.py:283-295). -/
structure Manifest where
  corpus_version : List Char
  git_sha : List Char
  build_timestamp_utc : List Char
  included_statuses : List (List Char)
  excluded_dirs : List (List Char)
  record_count : Nat
  doc_count : Nat
  output_corpus_jsonl : List Char
  output_index_json : List Char
deriving DecidableEq, Repr

/-- The three build artifacts (corpus.jsonl records, index.json entries,
manifest.json). -/
structure BuildOut where
  records : List ChunkRec
  doc_index : List IndexEntry
  manifest : Manifest
deriving DecidableEq, Repr

/-- `fm[k]`: the value, or a `KeyError`. -/
def fmReq (fm : Fm) (k : List Char) : Except PyErr Yaml :=
  match fmGet fm k with
  | some v => .ok v
  | none => .error (.keyError k)

/-- Python `a or b` for strings: `b` when `a` is missing or empty. -/
def pyOrStr (a : Option (List Char)) (b : List Char) : List Char :=
  match a with
  | some s => if s = [] then b else s
  | none => b

/-- Process one (non-path-excluded) document: skip silently unless status
is exactly `"stable"`, then read the required fields (a missing field is a
`KeyError`) and emit the chunk records and the index entry
(build_corpus.py:212-266). -/
def buildDoc (yamlLoad : YamlLoad) (version : List Char) (d : RawDoc) :
    Except PyErr (Option (List ChunkRec × IndexEntry)) := do
  let (fm, body) ← parse_doc yamlLoad d.raw
  if fmGet fm ("status".data) ≠ some (.str ("stable".data)) then
    return none
  let docId ← fmReq fm ("id".data)
  let title ← fmReq fm ("title".data)
  let domain ← fmReq fm ("domain".data)
  let tags ← fmReq fm ("tags".data)
  let audience ← fmReq fm ("audience".data)
  let status ← fmReq fm ("status".data)
  let h1 : Yaml := match extract_h1_title body with
    | some s => .str s
    | none => title
  let secs := split_into_h2_sections body
  let recs := (secs.map (fun sec =>
    ((split_section_into_paragraphs sec.lines).enum.map (fun ip =>
      ({ corpus_version := version,
         doc_id := docId,
         chunk_id := chunkId (pyStr docId) sec.h2_slug (ip.1 + 1),
         source_path := d.path,
         title := title,
         domain := domain,
         status := status,
         audience := audience,
         tags := tags,
         heading_path := [h1, .str sec.h2_title],
         content_type := ("text/markdown".data),
         content := ip.2,
         sha256 := sha256_hex ip.2,
         char_count := ip.2.length } : ChunkRec))))).flatten
  let entry : IndexEntry :=
    { doc_id := docId
      title := title
      domain := domain
      status := status
      audience := audience
      tags := tags
      source_path := d.path
      body_sha256 := sha256_hex body
      char_count := body.length
      chunk_count := recs.length }
  return some (recs, entry)

/-- The document loop of `main`: records and index entries accumulate in
traversal order; the first uncaught exception aborts the run. -/
def buildDocs (yamlLoad : YamlLoad) (version : List Char) :
    List RawDoc → Except PyErr (List ChunkRec × List IndexEntry)
  | [] => .ok ([], [])
  | d :: ds => do
    let r ← buildDoc yamlLoad version d
    let (recs, idx) ← buildDocs yamlLoad version ds
    match r with
    | none => return (recs, idx)
    | some (rs, e) => return (rs ++ recs, e :: idx)

/-- `args.corpus_version or os.environ.get("GITHUB_REF_NAME") or
"dev-unknown"`. -/
def resolveVersion (arg refName : Option (List Char)) : List Char :=
  pyOrStr arg (pyOrStr refName ("dev-unknown".data))

/-- The index sort key order: `d["doc_id"]` compared as a string. -/
def idxLe (a b : IndexEntry) : Prop :=
  charListLe (pyStr a.doc_id) (pyStr b.doc_id) = true

instance : DecidableRel idxLe := fun a b => by
  rw [idxLe]; infer_instance

/-- `main` of build_corpus.py, as a function of its inputs: the modelled
YAML decoder, the `--corpus-version` argument, the `GITHUB_REF_NAME`,
`GITHUB_SHA` and `BUILD_TIMESTAMP_UTC` environment values, the wall clock,
and the document tree. -/
def build_corpus_main (yamlLoad : YamlLoad)
    (corpusVersionArg refName gitShaEnv tsEnv : Option (List Char))
    (clock : List Char) (files : List RawDoc) : Except PyErr BuildOut := do
  let version := resolveVersion corpusVersionArg refName
  let git_sha := gitShaEnv.getD ("unknown".data)
  let (records, idx) ← buildDocs yamlLoad version (iter_docs files)
  let doc_index := List.insertionSort idxLe idx
  let ts := pyOrStr tsEnv clock
  return { records := records
           doc_index := doc_index
           manifest :=
            { corpus_version := version
              git_sha := git_sha
              build_timestamp_utc := ts
              included_statuses := [("stable".data)]
              excluded_dirs :=
                List.insertionSort (fun a b => charListLe a b = true) EXCLUDED_DIRS
              record_count := records.length
              doc_count := doc_index.length
              output_corpus_jsonl := ("corpus.jsonl".data)
              output_index_json := ("index.json".data) } }

/-! ## Structural Validator (validate_docs.py)

External collaborators are parameters: the YAML decoder, the JSON-schema
validator (`Draft202012Validator.iter_errors`), the filesystem-dependent
link checker, the taxonomy file's contents, and `date.today()`. -/

/-- The errors the validator collects (one constructor per `errors.append`
site of validate_docs.py). -/
inductive ValErr where
  | parseFailed (path : List (List Char)) (msg : List Char)
  | schemaError (path : List (List Char)) (detail : List Char)
  | domainErr (path : List (List Char)) (v : Option Yaml)
  | statusErr (path : List (List Char)) (v : Option Yaml)
  | audienceErr (path : List (List Char)) (v : Option Yaml)
  | tagErr (path : List (List Char)) (t : List Char)
  | dupId (path : List (List Char)) (id : List Char)
      (firstPath : List (List Char))
  | futureDate (path : List (List Char)) (lr : List Char)
  | badDate (path : List (List Char)) (lr : List Char)
  | htmlComment (path : List (List Char))
  | htmlTag (path : List (List Char))
  | linkMsg (path : List (List Char)) (msg : List Char)
deriving DecidableEq, Repr

/-- The validator's warnings. -/
inductive ValWarn where
  | noH1 (path : List (List Char))
  | dupTitle (domain : Yaml) (title_lc : List Char)
      (paths : List (List (List Char)))
deriving DecidableEq, Repr

/-- The validator's external inputs. -/
structure ValEnv where
  yamlLoad : YamlLoad
  schemaErrors : Fm → List (List Char)
  linkErrors : List (List Char) → List Char → List (List Char)
  allowed_domains : List (List Char)
  allowed_status : List (List Char)
  allowed_audience : List (List Char)
  tagMode : Option (List Char)
  curated_tags : List (List Char)
  today : Int × Int × Int

/-- `parse_doc` of validate_docs.py: as the build's, but the YAML decode
error is wrapped in a `ValueError` message. -/
def validate_parse_doc (yamlLoad : YamlLoad) (raw : List Char) :
    Except (List Char) (Fm × List Char) :=
  match frontMatterMatch raw with
  | none =>
    .error ("Missing YAML front matter bounded by '---' at top of file.".data)
  | some (fmText, body) =>
    match yamlLoad fmText with
    | .error e => .error ("Invalid YAML front matter: ".data ++ e)
    | .ok none => .ok ([], body)
    | .ok (some fm) => .ok (fm, body)

/-- `split_code_fence_regions` of validate_docs.py: the same scan as the
build's line-based splitter, with each region's lines joined back to one
string. -/
def split_code_fence_regions (text : List Char) : List (Bool × List Char) :=
  (split_code_fence_regions_lines (splitlinesKeepends text)).map
    (fun g => (g.1, g.2.flatten))

/-- ASCII letter test (for the HTML tag pattern's first character). -/
def isAsciiAlpha (c : Char) : Bool :=
  (65 ≤ c.toNat ∧ c.toNat ≤ 90) ∨ (97 ≤ c.toNat ∧ c.toNat ≤ 122)

/-- Does the haystack start with the needle? -/
def startsWithSeq : List Char → List Char → Bool
  | [], _ => true
  | _ :: _, [] => false
  | n :: ns, h :: hs => n = h && startsWithSeq ns hs

/-- Substring search (`needle in haystack`, `re` literal search). -/
def containsSeq (needle : List Char) : List Char → Bool
  | [] => startsWithSeq needle []
  | h :: hs => startsWithSeq needle (h :: hs) || containsSeq needle hs

/-- `re.search(r"<[A-Za-z!/][^>]*>", seg)`: somewhere a `<`, a class
character, then a `>` further right. -/
def htmlTagSearch : List Char → Bool
  | [] => false
  | '<' :: c :: rest =>
    if (isAsciiAlpha c || c = '!' || c = '/') && rest.contains '>' then true
    else htmlTagSearch (c :: rest)
  | _ :: rest => htmlTagSearch rest

/-- `validate_no_html`: scan prose regions; the first offending region
yields one error (`break`), comments checked before tags. -/
def noHtmlScan (path : List (List Char)) :
    List (Bool × List Char) → List ValErr
  | [] => []
  | (inCode, seg) :: rest =>
    if inCode then noHtmlScan path rest
    else if containsSeq ("<!--".data) seg then [.htmlComment path]
    else if htmlTagSearch seg then [.htmlTag path]
    else noHtmlScan path rest

/-- `validate_no_html` of validate_docs.py. -/
def validate_no_html (path : List (List Char)) (body : List Char) :
    List ValErr :=
  noHtmlScan path (split_code_fence_regions body)

/-- Decimal digit run to a number (ASCII digits; Python's underscore
grouping and non-ASCII digits are outside the modelled character set). -/
def digitsToNat (ds : List Char) : Option Nat :=
  match ds with
  | [] => none
  | _ =>
    if ds.all (fun c => 48 ≤ c.toNat ∧ c.toNat ≤ 57) then
      some (ds.foldl (fun acc c => acc * 10 + (c.toNat - 48)) 0)
    else none

/-- Python `int(str)`: optional surrounding whitespace, optional sign,
decimal digits. -/
def pyIntParse (s : List Char) : Option Int :=
  match pyStrip s with
  | '+' :: ds => (digitsToNat ds).map Int.ofNat
  | '-' :: ds => (digitsToNat ds).map (fun n => -(Int.ofNat n))
  | ds => (digitsToNat ds).map Int.ofNat

/-- Gregorian leap year (`datetime.date`'s calendar). -/
def isLeap (y : Int) : Bool := y % 4 = 0 ∧ (y % 100 ≠ 0 ∨ y % 400 = 0)

/-- Days in a month. -/
def daysInMonth (y m : Int) : Int :=
  if m = 2 then (if isLeap y then 29 else 28)
  else if m = 4 ∨ m = 6 ∨ m = 9 ∨ m = 11 then 30
  else 31

/-- `datetime.date(y, m, d)` accepts exactly these triples. -/
def validDate (y m d : Int) : Bool :=
  1 ≤ y ∧ y ≤ 9999 ∧ 1 ≤ m ∧ m ≤ 12 ∧ 1 ≤ d ∧ d ≤ daysInMonth y m

/-- Date comparison, lexicographic on (year, month, day). -/
def dateTripleLt (a b : Int × Int × Int) : Bool :=
  a.1 < b.1 ∨ (a.1 = b.1 ∧ (a.2.1 < b.2.1 ∨ (a.2.1 = b.2.1 ∧ a.2.2 < b.2.2)))

/-- The `last_reviewed` check (validate_docs.py:235-243): split on `-`,
parse three integers, build a date, compare with today; any failure is the
single "not a valid ISO date" error.  A non-string value fails inside the
`try` (no `.split`) and lands in the same error. -/
def lastReviewedErrs (today : Int × Int × Int) (path : List (List Char))
    (lr : Yaml) : List ValErr :=
  match lr with
  | .str s =>
    match s.splitOn '-' with
    | [ys, ms, ds] =>
      match pyIntParse ys, pyIntParse ms, pyIntParse ds with
      | some y, some m, some dd =>
        if validDate y m dd then
          if dateTripleLt today (y, m, dd) then [.futureDate path s] else []
        else [.badDate path s]
      | _, _, _ => [.badDate path s]
    | _ => [.badDate path s]
  | v => [.badDate path (pyStr v)]

/-- `value not in {strings}` (validate_docs.py:212-217): a string is looked
up, `None` (a missing key) is hashable and never a member, but a list value
is unhashable — the membership test raises an uncaught `TypeError`. -/
def inStrSet (v : Option Yaml) (set : List (List Char)) :
    Except PyErr Bool :=
  match v with
  | some (.str s) => .ok (set.contains s)
  | some (.listStr _) => .error .typeError
  | _ => .ok false

/-- The membership value `inStrSet` yields when it does not raise (the
value is not a list). -/
def strMem (v : Option Yaml) (set : List (List Char)) : Bool :=
  match v with
  | some (.str s) => set.contains s
  | _ => false

/-- Is the value a list (hence unhashable)? -/
def isListVal : Option Yaml → Bool
  | some (.listStr _) => true
  | _ => false

/-- Python iteration over the tag collection: a list yields its items, a
string yields its characters as one-character strings. -/
def yamlItems : Yaml → List (List Char)
  | .listStr items => items
  | .str s => s.map (fun c => [c])
  | .null => []

/-- The `.git`/`.github` skip of the validator loop
(validate_docs.py:192-193). -/
def skipGit (d : RawDoc) : Bool :=
  d.path.any (fun seg => seg = (".git".data) ∨ seg = (".github".data))

/-- `iter_markdown_files`: sorted traversal, hidden segments only (drafts
and deprecated directories are still validated). -/
def iter_markdown_files (files : List RawDoc) : List RawDoc :=
  (List.insertionSort pathLe files).filter (fun d => !(d.path.any hiddenSeg))

/-- `re.search(r"^\s*#\s+\S+", body, re.MULTILINE)` (validate_docs.py:258).
`^` anchors at the start and after each `'\n'`; `\s*` and `\s+` may cross
newlines.  The scan carries whether every character since the nearest
anchor is whitespace (then a `#` here is reachable by `^\s*`); after a
reachable `#` the match needs one whitespace character and then some later
non-whitespace character (the whitespace run before the first
non-whitespace realises `\s+`). -/
def h1Scan : Bool → List Char → Bool
  | _, [] => false
  | atWs, c :: rest =>
    (atWs && c = '#'
      && (match rest with
          | d :: rest2 => isPySpace d && rest2.any (fun x => !(isPySpace x))
          | [] => false))
    || h1Scan (if c = '\n' then true else atWs && isPySpace c) rest

/-- The validator's multiline H1 search over a whole body. -/
def h1Search (body : List Char) : Bool := h1Scan true body

/-- The errors one document contributes when none of its checks raises an
uncaught exception, given the `seen_ids` state: the per-document checks in
source order — schema, domain, status, audience, curated tags, duplicate
ID, last-reviewed date, raw HTML, links (validate_docs.py:195-249).  A
metadata parse failure contributes exactly its one error.  `validateStep`
is proven to produce exactly these errors whenever `fmOk` holds. -/
def stepNewErrors (env : ValEnv) (seen : List (Yaml × List (List Char)))
    (d : RawDoc) : List ValErr :=
  if skipGit d then []
  else
    match validate_parse_doc env.yamlLoad d.raw with
    | .error msg => [.parseFailed d.path msg]
    | .ok (fm, body) =>
      let domain := fmGet fm ("domain".data)
      let status := fmGet fm ("status".data)
      let audience := fmGet fm ("audience".data)
      (env.schemaErrors fm).map (ValErr.schemaError d.path)
      ++ (if strMem domain env.allowed_domains then []
          else [.domainErr d.path domain])
      ++ (if strMem status env.allowed_status then []
          else [.statusErr d.path status])
      ++ (if strMem audience env.allowed_audience then []
          else [.audienceErr d.path audience])
      ++ (if env.tagMode = some ("curated".data) then
            (yamlItems (match fmGet fm ("tags".data) with
              | some v => if yamlTruthy v then v else .listStr []
              | none => .listStr [])).filterMap (fun t =>
                if env.curated_tags.contains t then none
                else some (ValErr.tagErr d.path t))
          else [])
      ++ (match fmGet fm ("id".data) with
          | some v =>
            if yamlTruthy v then
              match seen.find? (fun p => p.1 = v) with
              | some p0 => [.dupId d.path (pyStr v) p0.2]
              | none => []
            else []
          | none => [])
      ++ (match fmGet fm ("last_reviewed".data) with
          | some lr =>
            if yamlTruthy lr then lastReviewedErrs env.today d.path lr else []
          | none => [])
      ++ validate_no_html d.path body
      ++ (env.linkErrors d.path body).map (ValErr.linkMsg d.path)

/-- The `seen_ids` update in the no-exception case: first occurrence
wins. -/
def stepSeen (env : ValEnv) (seen : List (Yaml × List (List Char)))
    (d : RawDoc) : List (Yaml × List (List Char)) :=
  if skipGit d then seen
  else
    match validate_parse_doc env.yamlLoad d.raw with
    | .error _ => seen
    | .ok (fm, _) =>
      match fmGet fm ("id".data) with
      | some v =>
        if yamlTruthy v then
          match seen.find? (fun p => p.1 = v) with
          | some _ => seen
          | none => seen ++ [(v, d.path)]
        else seen
      | none => seen

/-- The warnings one document contributes: missing top-level heading
(validate_docs.py:258-259). -/
def stepNewWarnings (env : ValEnv) (d : RawDoc) : List ValWarn :=
  if skipGit d then []
  else
    match validate_parse_doc env.yamlLoad d.raw with
    | .error _ => []
    | .ok (_, body) =>
      if h1Search body then [] else [.noH1 d.path]

/-- `title_map.setdefault(key, []).append(md_path)` on an insertion-ordered
association list. -/
def titleMapAdd (m : List ((Yaml × List Char) × List (List (List Char))))
    (k : Yaml × List Char) (p : List (List Char)) :
    List ((Yaml × List Char) × List (List (List Char))) :=
  if m.any (fun e => e.1 = k) then
    m.map (fun e => if e.1 = k then (e.1, e.2 ++ [p]) else e)
  else m ++ [(k, [p])]

/-- The `title_map` update in the no-exception case
(validate_docs.py:252-255). -/
def stepTitleMap (env : ValEnv)
    (tmap : List ((Yaml × List Char) × List (List (List Char))))
    (d : RawDoc) : List ((Yaml × List Char) × List (List (List Char))) :=
  if skipGit d then tmap
  else
    match validate_parse_doc env.yamlLoad d.raw with
    | .error _ => tmap
    | .ok (fm, _) =>
      match fmGet fm ("domain".data), fmGet fm ("title".data) with
      | some dv, some tv =>
        if yamlTruthy dv ∧ yamlTruthy tv then
          titleMapAdd tmap (dv, (pyStrip (pyStr tv)).map pyLower) d.path
        else tmap
      | _, _ => tmap

/-- The duplicate-ID check and `seen_ids` update, with its exception
(validate_docs.py:227-232): a truthy string ID is looked up in `seen_ids`
(a duplicate yields an error, a new ID is recorded — first occurrence
wins); a truthy list-valued ID is unhashable, so the dict membership test
raises an uncaught `TypeError`. -/
def dupIdStep (seen : List (Yaml × List (List Char)))
    (path : List (List Char)) (fm : Fm) :
    Except PyErr (List ValErr × List (Yaml × List (List Char))) :=
  match fmGet fm ("id".data) with
  | some v =>
    if yamlTruthy v then
      match v with
      | .listStr _ => .error .typeError
      | _ =>
        match seen.find? (fun p => p.1 = v) with
        | some p0 => .ok ([.dupId path (pyStr v) p0.2], seen)
        | none => .ok ([], seen ++ [(v, path)])
    else .ok ([], seen)
  | none => .ok ([], seen)

/-- The `title_map` update with its exceptions (validate_docs.py:252-255):
with truthy domain and title, `title.strip()` raises an uncaught
`AttributeError` when the title is not a string, and hashing the
`(domain, title)` key raises `TypeError` when the domain is a list (the
latter is unreachable in the full loop, where a list-valued domain already
raised at the membership check). -/
def titleStep (tmap : List ((Yaml × List Char) × List (List (List Char))))
    (path : List (List Char)) (fm : Fm) :
    Except PyErr (List ((Yaml × List Char) × List (List (List Char)))) :=
  match fmGet fm ("domain".data), fmGet fm ("title".data) with
  | some dv, some tv =>
    if yamlTruthy dv ∧ yamlTruthy tv then
      match tv with
      | .str s =>
        match dv with
        | .listStr _ => .error .typeError
        | _ => .ok (titleMapAdd tmap (dv, (pyStrip s).map pyLower) path)
      | _ => .error .attributeError
    else .ok tmap
  | _, _ => .ok tmap

/-- The validator loop's mutable state. -/
structure ValState where
  errors : List ValErr
  warnings : List ValWarn
  seen_ids : List (Yaml × List (List Char))
  title_map : List ((Yaml × List Char) × List (List (List Char)))
deriving DecidableEq, Repr

/-- One iteration of the validator's document loop, exceptions included:
the checks run in source order (schema, taxonomy memberships, curated
tags, duplicate ID, last-reviewed date, raw HTML, links, title map, H1
warning) and the first uncaught `TypeError`/`AttributeError` aborts the
whole run. -/
def validateStep (env : ValEnv) (st : ValState) (d : RawDoc) :
    Except PyErr ValState :=
  if skipGit d then .ok st
  else
    match validate_parse_doc env.yamlLoad d.raw with
    | .error msg =>
      .ok { st with errors := st.errors ++ [.parseFailed d.path msg] }
    | .ok (fm, body) => do
      let domain := fmGet fm ("domain".data)
      let status := fmGet fm ("status".data)
      let audience := fmGet fm ("audience".data)
      let eSchema := (env.schemaErrors fm).map (ValErr.schemaError d.path)
      let dmem ← inStrSet domain env.allowed_domains
      let eDomain := if dmem then [] else [ValErr.domainErr d.path domain]
      let smem ← inStrSet status env.allowed_status
      let eStatus := if smem then [] else [ValErr.statusErr d.path status]
      let amem ← inStrSet audience env.allowed_audience
      let eAudience := if amem then [] else [ValErr.audienceErr d.path audience]
      let eTags :=
        if env.tagMode = some ("curated".data) then
          (yamlItems (match fmGet fm ("tags".data) with
            | some v => if yamlTruthy v then v else .listStr []
            | none => .listStr [])).filterMap (fun t =>
              if env.curated_tags.contains t then none
              else some (ValErr.tagErr d.path t))
        else []
      let dup ← dupIdStep st.seen_ids d.path fm
      let eLr :=
        match fmGet fm ("last_reviewed".data) with
        | some lr =>
          if yamlTruthy lr then lastReviewedErrs env.today d.path lr else []
        | none => []
      let eHtml := validate_no_html d.path body
      let eLinks := (env.linkErrors d.path body).map (ValErr.linkMsg d.path)
      let tmap ← titleStep st.title_map d.path fm
      let ws := if h1Search body then [] else [ValWarn.noH1 d.path]
      pure { errors := st.errors ++ eSchema ++ eDomain ++ eStatus ++ eAudience
               ++ eTags ++ dup.1 ++ eLr ++ eHtml ++ eLinks
             warnings := st.warnings ++ ws
             seen_ids := dup.2
             title_map := tmap }

/-- The state update of one loop iteration in the no-exception case:
`validateStep` is proven to yield exactly this state whenever the
document's metadata raises nothing (`parsedOk`). -/
def validateStepT (env : ValEnv) (st : ValState) (d : RawDoc) : ValState :=
  { errors := st.errors ++ stepNewErrors env st.seen_ids d
    warnings := st.warnings ++ stepNewWarnings env d
    seen_ids := stepSeen env st.seen_ids d
    title_map := stepTitleMap env st.title_map d }

/-- The initial validator state. -/
def initValState : ValState := ⟨[], [], [], []⟩

/-- Does a decoded metadata mapping avoid every uncaught exception of the
per-document checks?  (No list-valued domain, status or audience; no
truthy list-valued id; no truthy non-string title next to a truthy
domain.) -/
def fmOk (fm : Fm) : Bool :=
  !(isListVal (fmGet fm ("domain".data)))
  && !(isListVal (fmGet fm ("status".data)))
  && !(isListVal (fmGet fm ("audience".data)))
  && !(match fmGet fm ("id".data) with
      | some v => yamlTruthy v && isListVal (some v)
      | none => false)
  && !(match fmGet fm ("domain".data), fmGet fm ("title".data) with
      | some dv, some tv => yamlTruthy dv && yamlTruthy tv && isListVal (some tv)
      | _, _ => false)

/-- Does processing the document raise no uncaught exception?  (A document
that fails to parse is caught and skipped, so it raises nothing.) -/
def parsedOk (env : ValEnv) (d : RawDoc) : Bool :=
  match validate_parse_doc env.yamlLoad d.raw with
  | .error _ => true
  | .ok (fm, _) => fmOk fm

/-- The validator's document loop: a left fold in the exception monad.  An
uncaught exception aborts the whole run. -/
def valRun (env : ValEnv) : ValState → List RawDoc → Except PyErr ValState
  | st, [] => .ok st
  | st, d :: ds =>
    match validateStep env st d with
    | .error e => .error e
    | .ok st2 => valRun env st2 ds

/-- The duplicate-title warnings emitted after the loop
(validate_docs.py:262-264). -/
def collisionWarnings
    (tmap : List ((Yaml × List Char) × List (List (List Char)))) :
    List ValWarn :=
  tmap.filterMap (fun e =>
    if 1 < e.2.length then some (ValWarn.dupTitle e.1.1 e.1.2 e.2) else none)

/-- The validator's observable outcome: the error and warning lists and the
process exit code. -/
structure ValResult where
  errors : List ValErr
  warnings : List ValWarn
  exitCode : Nat
deriving DecidableEq, Repr

/-- `main` of validate_docs.py: fold the per-document step over the
traversal (an uncaught exception propagates, aborting the run with nothing
reported), append the title-collision warnings, exit 1 exactly when the
error list is non-empty. -/
def validate_docs_main (env : ValEnv) (files : List RawDoc) :
    Except PyErr ValResult :=
  match valRun env initValState (iter_markdown_files files) with
  | .error e => .error e
  | .ok st =>
    .ok { errors := st.errors
          warnings := st.warnings ++ collisionWarnings st.title_map
          exitCode := if st.errors = [] then 0 else 1 }

/-- The error stream contributed by a document list from a given
`seen_ids` state. -/
def errsList (env : ValEnv) (seen : List (Yaml × List (List Char))) :
    List RawDoc → List ValErr
  | [] => []
  | d :: ds => stepNewErrors env seen d ++ errsList env (stepSeen env seen d) ds

/-! ### Order lemmas and build lemmas -/

/-- Success test for the modelled runs. -/
def exOk {ε α : Type} : Except ε α → Bool
  | .ok _ => true
  | .error _ => false

/-- The records a per-document result contributes. -/
def docRecsOf (r : Option (List ChunkRec × IndexEntry)) : List ChunkRec :=
  match r with
  | none => []
  | some x => x.1

/-! ## Theorems -/

/-! ### Fence scanner lemmas -/

theorem scanLines_append (st : ScanState) (xs ys : List Line) :
    scanLines st (xs ++ ys) = scanEmit st xs ++ scanLines (scanStateAfter st xs) ys := by
  induction xs generalizing st with
  | nil => simp [scanEmit, scanStateAfter]
  | cons l ls ih =>
    simp [scanLines, scanEmit, scanStateAfter, ih, List.append_assoc]

theorem flushOut_snd_flatten (st : ScanState) :
    ((flushOut st).map Prod.snd).flatten = st.buf := by
  by_cases h : st.buf.isEmpty
  · simp [flushOut, h, List.isEmpty_iff.mp h]
  · simp [flushOut, h]

theorem scanLines_flatten (st : ScanState) (ls : List Line) :
    ((scanLines st ls).map Prod.snd).flatten = st.buf ++ ls := by
  induction ls generalizing st with
  | nil => simpa [scanLines] using flushOut_snd_flatten st
  | cons l ls ih =>
    simp only [scanLines, List.map_append, List.flatten_append]
    cases hm : matchFenceDelim l with
    | none =>
      simp only [scanStep, hm]
      simp [ih]
    | some d =>
      simp only [scanStep, hm]
      by_cases hf : st.in_fence
      · by_cases hd : st.fence_delim = some d
        · simp only [hf, hd, if_true]
          simp [ih, flushOut_snd_flatten st, List.append_assoc]
        · simp only [hf, hd, if_true, if_false]
          simp [ih, flushOut_snd_flatten st, List.append_assoc]
      · simp only [hf, if_false, Bool.false_eq_true]
        simp [ih, flushOut_snd_flatten st, List.append_assoc]

theorem scanLines_all_nodelim (st : ScanState) (ls : List Line)
    (h : ∀ l ∈ ls, matchFenceDelim l = none) :
    scanLines st ls = flushOut ⟨st.in_fence, st.fence_delim, st.buf ++ ls⟩ := by
  induction ls generalizing st with
  | nil => simp [scanLines]
  | cons l ls ih =>
    have hl : matchFenceDelim l = none := h l (List.mem_cons_self l ls)
    simp only [scanLines, scanStep, hl]
    rw [ih _ (fun x hx => h x (List.mem_cons_of_mem l hx))]
    simp

theorem regionFlags_append (a b : List (Bool × List Line)) :
    regionFlags (a ++ b) = regionFlags a ++ regionFlags b := by
  simp [regionFlags]

theorem regionFlags_length (out : List (Bool × List Line)) :
    (regionFlags out).length = ((out.map Prod.snd).flatten).length := by
  induction out with
  | nil => simp [regionFlags]
  | cons g out ih => simp [regionFlags] at ih ⊢; omega

/-- C5: the Fence Scanner's output regions concatenate back to the input
(every line in exactly one group, in order); the scanner is a total function
(no error on malformed or unterminated fences); and once a fence is open and
never closed, every remaining line is classified literal. -/
theorem C5_fence_scanner_integrity (lines : List Line) :
    ((split_code_fence_regions_lines lines).map Prod.snd).flatten = lines
    ∧ (∀ pre rest, lines = pre ++ rest →
        (scanStateAfter initScan pre).in_fence = true →
        (∀ l ∈ rest, matchFenceDelim l = none) →
        (regionFlags (split_code_fence_regions_lines lines)).drop pre.length
          = List.replicate rest.length true) := by
  constructor
  · simpa [split_code_fence_regions_lines, initScan] using
      scanLines_flatten initScan lines
  · intro pre rest hsplit hfence hnod
    subst hsplit
    set stp := scanStateAfter initScan pre with hstp
    have h1 := scanLines_flatten initScan (pre ++ rest)
    rw [scanLines_append, List.map_append, List.flatten_append, ← hstp,
        scanLines_flatten stp rest] at h1
    have h2 : ((scanEmit initScan pre).map Prod.snd).flatten ++ stp.buf = pre := by
      have h1' : (((scanEmit initScan pre).map Prod.snd).flatten ++ stp.buf) ++ rest
          = pre ++ rest := by simpa [initScan, List.append_assoc] using h1
      exact List.append_cancel_right h1'
    have hlen : (regionFlags (scanEmit initScan pre)).length + stp.buf.length
        = pre.length := by
      rw [regionFlags_length]
      have := congrArg List.length h2
      simpa using this
    rw [split_code_fence_regions_lines, scanLines_append, ← hstp,
        scanLines_all_nodelim stp rest hnod, regionFlags_append]
    by_cases hb : stp.buf ++ rest = []
    · obtain ⟨hb1, hb2⟩ := List.append_eq_nil.mp hb
      have hfl : flushOut ⟨stp.in_fence, stp.fence_delim, stp.buf ++ rest⟩ = [] := by
        simp [flushOut, hb]
      rw [hfl, hb2]
      have hrn : regionFlags ([] : List (Bool × List Line)) = [] := by
        simp [regionFlags]
      rw [hrn, List.append_nil]
      simp only [List.length_nil, List.replicate_zero]
      exact List.drop_eq_nil_of_le (by omega)
    · have hfl : flushOut ⟨stp.in_fence, stp.fence_delim, stp.buf ++ rest⟩
          = [(stp.in_fence, stp.buf ++ rest)] := by
        simp [flushOut, hb]
      rw [hfl]
      have hrf : regionFlags [(stp.in_fence, stp.buf ++ rest)]
          = List.replicate (stp.buf.length + rest.length) true := by
        simp [regionFlags, hfence, List.map_const', List.length_append]
      rw [hrf, List.drop_append_eq_append_drop,
          List.drop_eq_nil_of_le (le_of_eq_of_le rfl (by omega)), List.nil_append,
          List.drop_replicate]
      congr 1
      omega

theorem isPySpace_false_of_slug (c : Char)
    (h : isSlugChar c = true ∨ c = '-') : isPySpace c = false := by
  have hval : (97 ≤ c.toNat ∧ c.toNat ≤ 122) ∨ (48 ≤ c.toNat ∧ c.toNat ≤ 57) ∨ c = '-' := by
    rcases h with h | h
    · simp only [isSlugChar, decide_eq_true_eq] at h; tauto
    · tauto
  by_contra hc
  rw [Bool.not_eq_false] at hc
  have hmem : c ∈ pySpaceChars := by simpa [isPySpace] using hc
  fin_cases hmem <;> revert hval <;> decide

theorem pyLower_eq_self (c : Char) (h : isSlugChar c = true ∨ c = '-') :
    pyLower c = c := by
  have hval : (97 ≤ c.toNat ∧ c.toNat ≤ 122) ∨ (48 ≤ c.toNat ∧ c.toNat ≤ 57)
      ∨ c.toNat = 45 := by
    rcases h with h | h
    · simp only [isSlugChar, decide_eq_true_eq] at h; tauto
    · subst h; right; right; rfl
  rw [pyLower, if_neg (by omega : ¬(65 ≤ c.toNat ∧ c.toNat ≤ 90))]

theorem subNonAlnumAux_mem (flag : Bool) (l : List Char) (c : Char)
    (h : c ∈ subNonAlnumAux flag l) : isSlugChar c = true ∨ c = '-' := by
  induction l generalizing flag with
  | nil => simp [subNonAlnumAux] at h
  | cons a rest ih =>
    rw [subNonAlnumAux] at h
    by_cases ha : isSlugChar a = true
    · rw [if_pos ha] at h
      rcases List.mem_cons.mp h with rfl | h
      · exact Or.inl ha
      · exact ih false h
    · rw [if_neg ha] at h
      by_cases hf : flag = true
      · rw [if_pos hf] at h; exact ih true h
      · rw [if_neg hf] at h
        rcases List.mem_cons.mp h with rfl | h
        · exact Or.inr rfl
        · exact ih true h

theorem subNonAlnumAux_eq_self (l : List Char) : ∀ flag : Bool,
    (∀ c ∈ l, isSlugChar c = true ∨ c = '-') →
    l.Chain' NoTwoHyph →
    (flag = true → l.head? ≠ some '-') →
    subNonAlnumAux flag l = l := by
  induction l with
  | nil => intro flag _ _ _; rfl
  | cons a rest ih =>
    intro flag hall hch hhd
    rw [subNonAlnumAux]
    rcases hall a (List.mem_cons_self a rest) with ha | ha
    · rw [if_pos ha]
      congr 1
      exact ih false (fun c hc => hall c (List.mem_cons_of_mem a hc))
        hch.tail (by simp)
    · have hnot : ¬ isSlugChar a = true := by subst ha; decide
      rw [if_neg hnot]
      cases flag with
      | true =>
        exact absurd (by simp [ha] : (a :: rest).head? = some '-') (hhd rfl)
      | false =>
        rw [if_neg (by simp)]
        refine congrArg₂ List.cons ha.symm ?_
        refine ih true (fun c hc => hall c (List.mem_cons_of_mem a hc)) hch.tail ?_
        intro _ hcon
        exact (List.chain'_cons'.mp hch).1 '-' (by simpa using hcon) ⟨ha, rfl⟩

theorem subNonAlnumAux_all_nonslug (l : List Char) : ∀ flag : Bool,
    (∀ c ∈ l, isSlugChar c = false) →
    subNonAlnumAux flag l = if flag = true ∨ l = [] then [] else ['-'] := by
  induction l with
  | nil => intro flag _; simp [subNonAlnumAux]
  | cons c rest ih =>
    intro flag h
    have hc : ¬ isSlugChar c = true := by
      simp [h c (List.mem_cons_self _ _)]
    rw [subNonAlnumAux, if_neg hc]
    have hrest := ih true (fun x hx => h x (List.mem_cons_of_mem c hx))
    cases flag with
    | true =>
      rw [if_pos rfl, hrest]
      simp
    | false =>
      rw [if_neg (by simp), hrest]
      simp

theorem collapseHyphensAux_mem (l : List Char) : ∀ (flag : Bool) (c : Char),
    c ∈ collapseHyphensAux flag l → c ∈ l := by
  induction l with
  | nil => intro flag c h; simp [collapseHyphensAux] at h
  | cons a rest ih =>
    intro flag c h
    rw [collapseHyphensAux] at h
    by_cases ha : a = '-'
    · rw [if_pos ha] at h
      by_cases hf : flag = true
      · rw [if_pos hf] at h
        exact List.mem_cons_of_mem a (ih true c h)
      · rw [if_neg hf] at h
        rcases List.mem_cons.mp h with rfl | h
        · exact ha ▸ List.mem_cons_self a rest
        · exact List.mem_cons_of_mem a (ih true c h)
    · rw [if_neg ha] at h
      rcases List.mem_cons.mp h with rfl | h
      · exact List.mem_cons_self c rest
      · exact List.mem_cons_of_mem a (ih false c h)

theorem collapseHyphensAux_true_head (l : List Char) : ∀ a : Char,
    (collapseHyphensAux true l).head? = some a → a ≠ '-' := by
  induction l with
  | nil => intro a h; simp [collapseHyphensAux] at h
  | cons c rest ih =>
    intro a h
    rw [collapseHyphensAux] at h
    by_cases hc : c = '-'
    · rw [if_pos hc, if_pos rfl] at h
      exact ih a h
    · rw [if_neg hc] at h
      simp only [List.head?_cons, Option.some.injEq] at h
      exact h ▸ hc

theorem collapseHyphensAux_chain' (l : List Char) : ∀ flag : Bool,
    (collapseHyphensAux flag l).Chain' NoTwoHyph := by
  induction l with
  | nil => intro flag; simp [collapseHyphensAux]
  | cons c rest ih =>
    intro flag
    rw [collapseHyphensAux]
    by_cases hc : c = '-'
    · rw [if_pos hc]
      by_cases hf : flag = true
      · rw [if_pos hf]; exact ih true
      · rw [if_neg hf]
        refine (ih true).cons' ?_
        intro y hy
        have hyne : y ≠ '-' :=
          collapseHyphensAux_true_head rest y (by simpa using hy)
        exact fun hcon => hyne hcon.2
    · rw [if_neg hc]
      refine (ih false).cons' ?_
      intro y hy
      exact fun hcon => hc hcon.1

theorem collapseHyphensAux_eq_self (l : List Char) : ∀ flag : Bool,
    l.Chain' NoTwoHyph → (flag = true → l.head? ≠ some '-') →
    collapseHyphensAux flag l = l := by
  induction l with
  | nil => intro flag _ _; rfl
  | cons c rest ih =>
    intro flag hch hhd
    rw [collapseHyphensAux]
    by_cases hc : c = '-'
    · rw [if_pos hc]
      cases flag with
      | true =>
        exact absurd (by simp [hc] : (c :: rest).head? = some '-') (hhd rfl)
      | false =>
        rw [if_neg (by simp)]
        refine congrArg₂ List.cons hc.symm ?_
        refine ih true hch.tail ?_
        intro _ hcon
        exact (List.chain'_cons'.mp hch).1 '-' (by simpa using hcon) ⟨hc, rfl⟩
    · rw [if_neg hc]
      refine congrArg₂ List.cons rfl ?_
      exact ih false hch.tail (by simp)

theorem mem_of_mem_stripEnds (p : Char → Bool) (l : List Char) (c : Char)
    (h : c ∈ (l.dropWhile p).rdropWhile p) : c ∈ l := by
  obtain ⟨u, hu⟩ := List.rdropWhile_prefix p (l.dropWhile p)
  obtain ⟨t, ht⟩ := List.dropWhile_suffix p (l := l)
  have h1 : c ∈ l.dropWhile p := by
    rw [← hu]
    exact List.mem_append_left u h
  rw [← ht]
  exact List.mem_append_right t h1

theorem stripHyphens_mem (l : List Char) (c : Char) (h : c ∈ stripHyphens l) :
    c ∈ l :=
  mem_of_mem_stripEnds isHyphen l c h

theorem stripHyphens_chain' (l : List Char) (h : l.Chain' NoTwoHyph) :
    (stripHyphens l).Chain' NoTwoHyph := by
  rw [stripHyphens]
  obtain ⟨t, ht⟩ := List.dropWhile_suffix isHyphen (l := l)
  have h1 : (l.dropWhile isHyphen).Chain' NoTwoHyph := by
    rw [← ht] at h
    exact h.right_of_append
  obtain ⟨u, hu⟩ := List.rdropWhile_prefix isHyphen (l.dropWhile isHyphen)
  rw [← hu] at h1
  exact h1.left_of_append

theorem stripHyphens_head (l : List Char) (a : Char)
    (h : (stripHyphens l).head? = some a) : a ≠ '-' := by
  rw [stripHyphens] at h
  obtain ⟨u, hu⟩ := List.rdropWhile_prefix isHyphen (l.dropWhile isHyphen)
  have h1 : (l.dropWhile isHyphen).head? = some a := by
    rw [← hu]
    exact List.mem_head?_append_of_mem_head? h
  have hne : l.dropWhile isHyphen ≠ [] := by
    intro hnil; rw [hnil] at h1; simp at h1
  have h2 := List.head_dropWhile_not isHyphen l hne
  have h3 : (l.dropWhile isHyphen).head hne = a := by
    rw [List.head?_eq_head hne] at h1
    exact Option.some.inj h1
  rw [h3] at h2
  simpa [isHyphen] using h2

theorem stripHyphens_last (l : List Char) (a : Char)
    (h : (stripHyphens l).getLast? = some a) : a ≠ '-' := by
  rw [stripHyphens] at h
  obtain ⟨hne, ha⟩ := List.mem_getLast?_eq_getLast h
  have := List.rdropWhile_last_not isHyphen (l.dropWhile isHyphen) hne
  rw [← ha] at this
  simpa [isHyphen] using this

theorem stripHyphens_eq_self (l : List Char)
    (h1 : l.head? ≠ some '-') (h2 : l.getLast? ≠ some '-') :
    stripHyphens l = l := by
  rw [stripHyphens]
  have hd : l.dropWhile isHyphen = l := by
    cases l with
    | nil => rfl
    | cons c rest =>
      have hc : isHyphen c = false := by
        by_contra hcc
        rw [Bool.not_eq_false, isHyphen, decide_eq_true_eq] at hcc
        exact h1 (by simp [hcc])
      simp [List.dropWhile_cons, hc]
  rw [hd, List.rdropWhile_eq_self_iff]
  intro hl hp
  apply h2
  rw [List.getLast?_eq_getLast l hl]
  have : l.getLast hl = '-' := by simpa [isHyphen] using hp
  rw [this]

theorem rootSlug_shape : SlugShape rootSlug := by
  refine ⟨by decide, by decide, ?_, by decide, by decide⟩
  exact List.Chain'.cons (by decide)
    (List.Chain'.cons (by decide)
      (List.Chain'.cons (by decide) (List.chain'_singleton _)))

theorem slugify_shape (s : List Char) : SlugShape (slugify s) := by
  rw [slugify]
  by_cases h : stripHyphens (collapseHyphensAux false
      (subNonAlnumAux false ((pyStrip s).map pyLower))) = []
  · rw [if_pos h]; exact rootSlug_shape
  · rw [if_neg h]
    refine ⟨h, ?_, ?_, ?_, ?_⟩
    · intro c hc
      exact subNonAlnumAux_mem false _ c
        (collapseHyphensAux_mem _ false c (stripHyphens_mem _ c hc))
    · exact stripHyphens_chain' _ (collapseHyphensAux_chain' _ false)
    · intro hcon
      exact stripHyphens_head _ '-' hcon rfl
    · intro hcon
      exact stripHyphens_last _ '-' hcon rfl

theorem slugify_eq_self_of_shape (l : List Char) (h : SlugShape l) :
    slugify l = l := by
  obtain ⟨hne, hall, hch, hhd, hlast⟩ := h
  have h1 : pyStrip l = l := by
    rw [pyStrip]
    have hd : l.dropWhile isPySpace = l := by
      cases l with
      | nil => rfl
      | cons c rest =>
        have := isPySpace_false_of_slug c (hall c (List.mem_cons_self c rest))
        simp [List.dropWhile_cons, this]
    rw [hd, List.rdropWhile_eq_self_iff]
    intro hl hp
    have hmem : l.getLast hl ∈ l := List.getLast_mem hl
    have := isPySpace_false_of_slug _ (hall _ hmem)
    rw [this] at hp
    exact Bool.noConfusion hp
  have h2 : l.map pyLower = l := by
    have : l.map pyLower = l.map id :=
      List.map_congr_left (fun c hc => pyLower_eq_self c (hall c hc))
    rw [this, List.map_id]
  have e2 : subNonAlnumAux false l = l :=
    subNonAlnumAux_eq_self l false hall hch (by simp)
  have e3 : collapseHyphensAux false l = l :=
    collapseHyphensAux_eq_self l false hch (by simp)
  have e4 : stripHyphens l = l := stripHyphens_eq_self l hhd hlast
  simp only [slugify, h1, h2, e2, e3, e4]
  rw [if_neg hne]

theorem slugify_idem (s : List Char) : slugify (slugify s) = slugify s :=
  slugify_eq_self_of_shape (slugify s) (slugify_shape s)

theorem slugify_all_nonslug (s : List Char)
    (h : ∀ c ∈ s, isSlugChar (pyLower c) = false) : slugify s = rootSlug := by
  have h1 : ∀ c ∈ (pyStrip s).map pyLower, isSlugChar c = false := by
    intro c hc
    obtain ⟨a, ha, rfl⟩ := List.mem_map.mp hc
    exact h a (mem_of_mem_stripEnds isPySpace s a ha)
  rw [slugify]
  rw [subNonAlnumAux_all_nonslug _ false h1]
  by_cases hnil : (pyStrip s).map pyLower = []
  · rw [if_pos (Or.inr hnil)]
    decide
  · rw [if_neg (show ¬(false = true ∨ (pyStrip s).map pyLower = []) by
      simp [hnil])]
    decide

theorem flagScan_append (s : Bool × Option Delim) (xs ys : List Line) :
    flagScan s (xs ++ ys)
      = flagScan s xs ++ flagScan (List.foldl fenceNext s xs) ys := by
  induction xs generalizing s with
  | nil => simp [flagScan]
  | cons l ls ih => simp [flagScan, ih]

theorem flagScan_map_snd (s : Bool × Option Delim) (ls : List Line) :
    (flagScan s ls).map Prod.snd = ls := by
  induction ls generalizing s with
  | nil => rfl
  | cons l ls ih => simp [flagScan, ih]

/-- Bridge: the tagged-line view of the scanner output from state `st`
equals the buffered lines tagged with the current flag, followed by the
per-line `flagScan` of the remaining input. -/
theorem scanLines_tagged (st : ScanState) (ls : List Line) :
    ((scanLines st ls).map (fun g => g.2.map (fun l => (g.1, l)))).flatten
      = st.buf.map (fun l => (st.in_fence, l))
        ++ flagScan (st.in_fence, st.fence_delim) ls := by
  induction ls generalizing st with
  | nil =>
    by_cases h : st.buf.isEmpty
    · simp [scanLines, flushOut, h, List.isEmpty_iff.mp h, flagScan]
    · simp [scanLines, flushOut, h, flagScan]
  | cons l ls ih =>
    simp only [scanLines, List.map_append, List.flatten_append]
    cases hm : matchFenceDelim l with
    | none =>
      simp only [scanStep, hm]
      rw [ih]
      simp [flagScan, lineFlag, fenceNext, hm]
    | some d =>
      simp only [scanStep, hm]
      have hfl : ((flushOut st).map (fun g => g.2.map (fun l => (g.1, l)))).flatten
          = st.buf.map (fun l => (st.in_fence, l)) := by
        by_cases h : st.buf.isEmpty
        · simp [flushOut, h, List.isEmpty_iff.mp h]
        · simp [flushOut, h]
      by_cases hf : st.in_fence
      · by_cases hd : st.fence_delim = some d
        · simp only [hf, hd, if_true]
          rw [ih]
          simp [flagScan, lineFlag, fenceNext, hm, hfl, hf, hd]
        · simp only [hf, hd, if_true, if_false]
          rw [ih]
          simp [flagScan, lineFlag, fenceNext, hm, hfl, hf, hd]
      · simp only [hf, if_false, Bool.false_eq_true]
        rw [ih]
        simp [flagScan, lineFlag, fenceNext, hm, hfl, hf]

theorem taggedLines_eq_flagScan (lines : List Line) :
    taggedLines lines = flagScan (false, none) lines := by
  simpa [taggedLines, split_code_fence_regions_lines, initScan] using
    scanLines_tagged initScan lines

theorem taggedLines_map_snd (lines : List Line) :
    (taggedLines lines).map Prod.snd = lines := by
  rw [taggedLines_eq_flagScan, flagScan_map_snd]

theorem sectionScan_length (tls : List (Bool × Line)) : ∀ st : SecState,
    (sectionScan st tls).length = 1 + tls.countP startsSection := by
  induction tls with
  | nil => intro st; simp [sectionScan]
  | cons bl rest ih =>
    intro st
    obtain ⟨inCode, l⟩ := bl
    rw [sectionScan]
    by_cases hc : inCode = true
    · subst hc
      rw [if_pos rfl, ih]
      simp [List.countP_cons, startsSection]
    · rw [if_neg hc]
      rw [Bool.not_eq_true] at hc
      subst hc
      cases hm : matchH2 l with
      | none =>
        rw [ih]
        simp [List.countP_cons, startsSection, hm]
      | some g =>
        simp only [List.length_cons, ih]
        simp [List.countP_cons, startsSection, hm]
        omega

theorem sectionScan_flatten (tls : List (Bool × Line)) : ∀ st : SecState,
    ((sectionScan st tls).map Section.lines).flatten
      = st.cur ++ tls.map Prod.snd := by
  induction tls with
  | nil => intro st; simp [sectionScan]
  | cons bl rest ih =>
    intro st
    obtain ⟨inCode, l⟩ := bl
    rw [sectionScan]
    by_cases hc : inCode = true
    · subst hc
      rw [if_pos rfl, ih]
      simp [List.append_assoc]
    · rw [if_neg hc]
      rw [Bool.not_eq_true] at hc
      subst hc
      cases hm : matchH2 l with
      | none =>
        rw [ih]
        simp [List.append_assoc]
      | some g =>
        simp only [List.map_cons, List.flatten_cons, ih]
        simp [List.append_assoc]

/-- Coverage: the sections of any line list concatenate back to it. -/
theorem split_into_h2_sections_lines_flatten (lines : List Line) :
    ((split_into_h2_sections_lines lines).map Section.lines).flatten = lines := by
  rw [split_into_h2_sections_lines, sectionScan_flatten, taggedLines_map_snd]
  rfl

set_option maxHeartbeats 1000000 in
/-- Every slug appearing in the output of the section scan has the slug
shape, provided the accumulator's does. -/
theorem sectionScan_slug_shape (tls : List (Bool × Line)) : ∀ st : SecState,
    SlugShape st.slug → ∀ sec ∈ sectionScan st tls, SlugShape sec.h2_slug := by
  induction tls with
  | nil =>
    intro st hst sec hsec
    rw [sectionScan] at hsec
    rcases List.mem_singleton.mp hsec with rfl
    exact hst
  | cons bl rest ih =>
    intro st hst sec hsec
    obtain ⟨inCode, l⟩ := bl
    rw [sectionScan] at hsec
    by_cases hc : inCode = true
    · subst hc
      rw [if_pos rfl] at hsec
      exact ih ⟨st.title, st.slug, st.cur ++ [l]⟩ hst sec hsec
    · rw [if_neg hc] at hsec
      rw [Bool.not_eq_true] at hc
      subst hc
      cases hm : matchH2 l with
      | none =>
        rw [hm] at hsec
        exact ih ⟨st.title, st.slug, st.cur ++ [l]⟩ hst sec hsec
      | some g =>
        rw [hm] at hsec
        have hsec' : sec = (⟨st.title, st.slug, st.cur⟩ : Section)
            ∨ sec ∈ sectionScan ⟨pyStrip g, slugify (pyStrip g), [l]⟩ rest :=
          List.mem_cons.mp hsec
        rcases hsec' with rfl | hsec'
        · exact hst
        · have hshape : SlugShape
              (SecState.mk (pyStrip g) (slugify (pyStrip g)) [l]).slug :=
            slugify_shape (pyStrip g)
          exact ih ⟨pyStrip g, slugify (pyStrip g), [l]⟩ hshape sec hsec'

theorem paraScan_append (xs ys : List (Bool × Line)) : ∀ buf,
    paraScan buf (xs ++ ys) = paraOut buf xs ++ paraScan (paraBufAfter buf xs) ys := by
  induction xs with
  | nil => intro buf; simp [paraOut, paraBufAfter]
  | cons bl rest ih =>
    intro buf
    obtain ⟨inCode, l⟩ := bl
    rw [List.cons_append, paraScan, paraOut, paraBufAfter]
    by_cases hc : inCode = true
    · subst hc
      rw [if_pos rfl, if_pos rfl, if_pos rfl, ih]
    · rw [if_neg hc, if_neg hc, if_neg hc]
      by_cases hl : pyStrip l = []
      · rw [if_pos hl, if_pos hl, if_pos hl, ih]
        simp [List.append_assoc]
      · rw [if_neg hl, if_neg hl, if_neg hl, ih]

theorem pyStrip_eq_nil_iff (l : List Char) :
    pyStrip l = [] ↔ ∀ c ∈ l, isPySpace c = true := by
  rw [pyStrip, List.rdropWhile_eq_nil_iff]
  constructor
  · intro h c hc
    have hc' : c ∈ l.takeWhile isPySpace ++ l.dropWhile isPySpace := by
      rw [List.takeWhile_append_dropWhile]; exact hc
    rcases List.mem_append.mp hc' with h1 | h1
    · exact List.mem_takeWhile_imp h1
    · exact h c h1
  · intro h c hc
    exact h c ((List.dropWhile_suffix isPySpace).subset hc)

theorem pyStrip_append_left_ne (a b : List Char) (h : pyStrip a ≠ []) :
    pyStrip (a ++ b) ≠ [] := by
  intro hcon
  apply h
  rw [pyStrip_eq_nil_iff] at hcon ⊢
  intro c hc
  exact hcon c (List.mem_append_left b hc)

theorem flushPara_length_one (buf : List Line) (h : pyStrip buf.flatten ≠ []) :
    (flushPara buf).length = 1 := by
  rw [flushPara]
  simp only [if_neg h, List.length_singleton]

/-- Two paragraph scans whose buffers both hold non-whitespace content emit
the same number of paragraphs on the same remaining input. -/
theorem paraScan_length_congr (tls : List (Bool × Line)) :
    ∀ buf₁ buf₂, pyStrip buf₁.flatten ≠ [] → pyStrip buf₂.flatten ≠ [] →
    (paraScan buf₁ tls).length = (paraScan buf₂ tls).length := by
  induction tls with
  | nil =>
    intro buf₁ buf₂ h1 h2
    simp [paraScan, flushPara_length_one _ h1, flushPara_length_one _ h2]
  | cons bl rest ih =>
    intro buf₁ buf₂ h1 h2
    obtain ⟨inCode, l⟩ := bl
    rw [paraScan, paraScan]
    by_cases hc : inCode = true
    · subst hc
      rw [if_pos rfl, if_pos rfl]
      exact ih _ _ (by rw [List.flatten_append]; exact pyStrip_append_left_ne _ _ h1)
        (by rw [List.flatten_append]; exact pyStrip_append_left_ne _ _ h2)
    · rw [if_neg hc, if_neg hc]
      by_cases hl : pyStrip l = []
      · rw [if_pos hl, if_pos hl]
        simp [flushPara_length_one _ h1, flushPara_length_one _ h2]
      · rw [if_neg hl, if_neg hl]
        exact ih _ _ (by rw [List.flatten_append]; exact pyStrip_append_left_ne _ _ h1)
          (by rw [List.flatten_append]; exact pyStrip_append_left_ne _ _ h2)

theorem pyStrip_ne_nil_of_mem (x : List Char) (c : Char) (hc : c ∈ x)
    (hw : isPySpace c = false) : pyStrip x ≠ [] := by
  intro hcon
  rw [pyStrip_eq_nil_iff] at hcon
  rw [hcon c hc] at hw
  exact Bool.noConfusion hw

/-- A fence delimiter line contains a non-whitespace character. -/
theorem fenceLine_nonws (l : Line) (d : Delim) (h : matchFenceDelim l = some d) :
    ∃ c ∈ l, isPySpace c = false := by
  have hne : l.dropWhile isPySpace ≠ [] := by
    intro hnil
    rw [matchFenceDelim, hnil] at h
    exact Option.noConfusion h
  refine ⟨(l.dropWhile isPySpace).head hne,
    (List.dropWhile_suffix isPySpace).subset (List.head_mem hne), ?_⟩
  have h1 := List.head_dropWhile_not isPySpace l hne
  simpa using h1

/-- While a fence is open, the paragraph buffer holds non-whitespace content
(at least the fence-opening line). -/
theorem paraBuf_nonws_invariant (ls : List Line) :
    ∀ (s : Bool × Option Delim) (buf : List Line),
    (s.1 = true → pyStrip buf.flatten ≠ []) →
    (List.foldl fenceNext s ls).1 = true →
    pyStrip (paraBufAfter buf (flagScan s ls)).flatten ≠ [] := by
  induction ls with
  | nil =>
    intro s buf h hf
    simp only [List.foldl_nil] at hf
    exact h hf
  | cons l ls ih =>
    intro s buf h hf
    rw [List.foldl_cons] at hf
    rw [flagScan]
    cases hm : matchFenceDelim l with
    | none =>
      have hfn : fenceNext s l = s := by rw [fenceNext, hm]
      have hlf : lineFlag s l = s.1 := by rw [lineFlag, hm]
      rw [hfn] at hf ⊢
      rw [hlf]
      by_cases hs : s.1 = true
      · rw [hs, paraBufAfter, if_pos rfl]
        refine ih s (buf ++ [l]) ?_ hf
        intro _
        rw [List.flatten_append]
        simpa using pyStrip_append_left_ne _ _ (h hs)
      · rw [Bool.not_eq_true] at hs
        rw [hs, paraBufAfter, if_neg (by simp)]
        by_cases hl : pyStrip l = []
        · rw [if_pos hl]
          exact ih s [] (fun hcon => absurd hcon (by simp [hs])) hf
        · rw [if_neg hl]
          exact ih s (buf ++ [l]) (fun hcon => absurd hcon (by simp [hs])) hf
    | some d =>
      have hlf : lineFlag s l = true := by rw [lineFlag, hm]
      rw [hlf, paraBufAfter, if_pos rfl]
      obtain ⟨c, hcmem, hcw⟩ := fenceLine_nonws l d hm
      have hbl : pyStrip (buf ++ [l]).flatten ≠ [] := by
        rw [List.flatten_append]
        refine pyStrip_ne_nil_of_mem _ c ?_ hcw
        refine List.mem_append_right _ ?_
        simpa using hcmem
      by_cases hs : s.1 = true
      · by_cases hd : s.2 = some d
        · have hfn : fenceNext s l = (false, none) := by
            rw [fenceNext, hm]; simp [hs, hd]
          rw [hfn] at hf ⊢
          exact ih (false, none) (buf ++ [l])
            (fun hcon => absurd hcon (by simp)) hf
        · have hfn : fenceNext s l = s := by
            rw [fenceNext, hm]; simp [hs, hd]
          rw [hfn] at hf ⊢
          exact ih s (buf ++ [l]) (fun _ => hbl) hf
      · have hfn : fenceNext s l = (true, some d) := by
          rw [fenceNext, hm]; simp [hs]
        rw [hfn] at hf ⊢
        exact ih (true, some d) (buf ++ [l]) (fun _ => hbl) hf

/-- Inserting a non-delimiter line while a fence is open changes the tagged
stream only by inserting that line, tagged literal; every other line keeps
its tag. -/
theorem taggedLines_insert_literal (pre post : List Line) (l : Line)
    (hnod : matchFenceDelim l = none) :
    taggedLines (pre ++ l :: post)
      = flagScan (false, none) pre
        ++ ((List.foldl fenceNext (false, none) pre).1, l)
          :: flagScan (List.foldl fenceNext (false, none) pre) post
    ∧ taggedLines (pre ++ post)
      = flagScan (false, none) pre
        ++ flagScan (List.foldl fenceNext (false, none) pre) post := by
  constructor
  · rw [taggedLines_eq_flagScan, flagScan_append, flagScan]
    have h1 : lineFlag (List.foldl fenceNext (false, none) pre) l
        = (List.foldl fenceNext (false, none) pre).1 := by
      rw [lineFlag, hnod]
    have h2 : fenceNext (List.foldl fenceNext (false, none) pre) l
        = List.foldl fenceNext (false, none) pre := by
      rw [fenceNext, hnod]
    rw [h1, h2]
  · rw [taggedLines_eq_flagScan, flagScan_append]

/-- C6: a heading-shaped or blank line inside an open (possibly
unterminated) fence starts no new section and no new paragraph: inserting
any non-delimiter line at a point where the fence state is open leaves the
number of sections and the number of paragraphs unchanged, and the line is
carried verbatim (the sections cover the body exactly). -/
theorem C6_literal_lines_no_boundaries (body : List Char)
    (pre post : List Line) (l : Line)
    (hsplit : splitlinesKeepends body = pre ++ l :: post)
    (hfence : (List.foldl fenceNext (false, none) pre).1 = true)
    (hnod : matchFenceDelim l = none) :
    (split_into_h2_sections body).length
      = (split_into_h2_sections_lines (pre ++ post)).length
    ∧ ((split_into_h2_sections body).map Section.lines).flatten
      = pre ++ l :: post
    ∧ (split_section_into_paragraphs (pre ++ l :: post)).length
      = (split_section_into_paragraphs (pre ++ post)).length := by
  obtain ⟨hins, hdel⟩ := taggedLines_insert_literal pre post l hnod
  rw [hfence] at hins
  refine ⟨?_, ?_, ?_⟩
  · rw [split_into_h2_sections, split_into_h2_sections_lines, hsplit,
      split_into_h2_sections_lines, sectionScan_length, sectionScan_length,
      hins, hdel]
    simp [List.countP_append, List.countP_cons, startsSection]
  · rw [split_into_h2_sections, split_into_h2_sections_lines_flatten, hsplit]
  · rw [split_section_into_paragraphs, split_section_into_paragraphs,
      hins, hdel, paraScan_append, paraScan_append]
    simp only [List.length_append]
    congr 1
    rw [paraScan]
    rw [if_pos rfl]
    have hbuf : pyStrip (paraBufAfter [] (flagScan (false, none) pre)).flatten
        ≠ [] :=
      paraBuf_nonws_invariant pre (false, none) []
        (fun hcon => absurd hcon (by simp)) hfence
    refine paraScan_length_congr _ _ _ ?_ hbuf
    rw [List.flatten_append]
    simpa using pyStrip_append_left_ne _ _ hbuf

/-! ### Characterization of the heading match -/

theorem lazyDot_isSome_iff (m : List Char) :
    (lazyDot m).isSome = true ↔
      ∃ b c, m = b ++ c ∧ b ≠ [] ∧ '\n' ∉ b ∧ (∀ x ∈ c, isPySpace x = true) := by
  induction m with
  | nil =>
    simp only [lazyDot, Option.isSome_none, Bool.false_eq_true, false_iff]
    rintro ⟨b, c, hm, hb, _, _⟩
    exact hb (List.append_eq_nil.mp hm.symm).1
  | cons ch rest ih =>
    rw [lazyDot]
    by_cases hnl : ch = '\n'
    · rw [if_pos hnl]
      simp only [Option.isSome_none, Bool.false_eq_true, false_iff]
      rintro ⟨b, c, hm, hb, hnb, _⟩
      cases b with
      | nil => exact hb rfl
      | cons x b' =>
        have hx : x = ch := (List.cons.injEq x (b' ++ c) ch rest).mp hm.symm |>.1
        exact hnb (by rw [hx, hnl]; exact List.mem_cons_self _ _)
    · rw [if_neg hnl]
      by_cases hall : rest.all isPySpace
      · rw [if_pos hall]
        simp only [Option.isSome_some, true_iff]
        refine ⟨[ch], rest, rfl, by simp,
          (by intro hmem; exact hnl (List.mem_singleton.mp hmem).symm), ?_⟩
        intro x hx
        exact List.all_eq_true.mp hall x hx
      · rw [if_neg hall]
        have hiso : (match lazyDot rest with
            | some b => some (ch :: b)
            | none => none).isSome = (lazyDot rest).isSome := by
          cases lazyDot rest <;> rfl
        rw [hiso, ih]
        constructor
        · rintro ⟨b, c, hm, hb, hnb, hc⟩
          refine ⟨ch :: b, c, by rw [hm]; rfl, by simp, ?_, hc⟩
          intro hmem
          rcases List.mem_cons.mp hmem with h | h
          · exact hnl h.symm
          · exact hnb h
        · rintro ⟨b, c, hm, hb, hnb, hc⟩
          cases b with
          | nil => exact absurd rfl hb
          | cons x b' =>
            have hx : x = ch ∧ b' ++ c = rest :=
              (List.cons.injEq x (b' ++ c) ch rest).mp hm.symm
            cases b' with
            | nil =>
              exfalso
              apply hall
              rw [List.all_eq_true]
              intro u hu
              exact hc u (by rw [← hx.2] at hu; simpa using hu)
            | cons y b'' =>
              refine ⟨y :: b'', c, hx.2.symm, by simp, ?_, hc⟩
              intro hmem
              exact hnb (List.mem_cons_of_mem x hmem)

theorem h2TryT_isSome_iff (r : List Char) (q : Nat) :
    (h2TryT r q).isSome = true ↔
      ∃ t, 1 ≤ t ∧ t ≤ q ∧ (lazyDot (r.drop t)).isSome = true := by
  induction q with
  | zero =>
    simp only [h2TryT, Option.isSome_none, Bool.false_eq_true, false_iff]
    rintro ⟨t, h1, h2, _⟩
    omega
  | succ q ih =>
    rw [h2TryT]
    cases hld : lazyDot (r.drop (q + 1)) with
    | some b =>
      simp only [Option.isSome_some, true_iff]
      exact ⟨q + 1, by omega, le_refl _, by rw [hld]; rfl⟩
    | none =>
      rw [ih]
      constructor
      · rintro ⟨t, h1, h2, h3⟩
        exact ⟨t, h1, by omega, h3⟩
      · rintro ⟨t, h1, h2, h3⟩
        rcases Nat.lt_or_ge t (q + 1) with hlt | hge
        · exact ⟨t, h1, by omega, h3⟩
        · exfalso
          have : t = q + 1 := by omega
          rw [this, hld] at h3
          exact Bool.noConfusion h3

theorem dropWhile_all_append (p : Char → Bool) (w r : List Char)
    (hw : ∀ x ∈ w, p x = true) : (w ++ r).dropWhile p = r.dropWhile p := by
  induction w with
  | nil => rfl
  | cons x w' ih =>
    have ih' := ih (fun y hy => hw y (List.mem_cons_of_mem x hy))
    rw [List.cons_append, List.dropWhile_cons,
      if_pos (hw x (List.mem_cons_self x w')), ih']

theorem takeWhile_all_append (p : Char → Bool) (w r : List Char)
    (hw : ∀ x ∈ w, p x = true) : (w ++ r).takeWhile p = w ++ r.takeWhile p := by
  induction w with
  | nil => rfl
  | cons x w' ih =>
    have ih' := ih (fun y hy => hw y (List.mem_cons_of_mem x hy))
    rw [List.cons_append, List.takeWhile_cons,
      if_pos (hw x (List.mem_cons_self x w')), ih']
    rfl

theorem matchH2_isSome_iff (l : Line) :
    (matchH2 l).isSome = true ↔ AmendedH2 l := by
  constructor
  · intro h
    rw [matchH2] at h
    cases hdw : l.dropWhile isPySpace with
    | nil => rw [hdw] at h; exact absurd h (by simp)
    | cons c1 tail =>
      cases tail with
      | nil => rw [hdw] at h; exact absurd h (by simp)
      | cons c2 rest2 =>
        rw [hdw] at h
        have h' : (if c1 = '#' ∧ c2 = '#'
            then h2TryT rest2 ((rest2.takeWhile isPySpace).length)
            else none).isSome = true := h
        by_cases hh : c1 = '#' ∧ c2 = '#'
        · rw [if_pos hh] at h'
          obtain ⟨rfl, rfl⟩ := hh
          obtain ⟨t, ht1, ht2, ht3⟩ := (h2TryT_isSome_iff _ _).mp h'
          obtain ⟨b, c, hbc, hb, hnb, hc⟩ := (lazyDot_isSome_iff _).mp ht3
          have htq : t ≤ rest2.length :=
            le_trans ht2 (List.IsPrefix.length_le ( List.takeWhile_prefix _))
          have hlen : (rest2.take t).length = t := by
            rw [List.length_take]
            omega
          refine ⟨l.takeWhile isPySpace, rest2.take t, b, c, ?_, ?_, ?_, ?_,
            hb, hnb, hc⟩
          · have h1 : l = l.takeWhile isPySpace ++ ('#' :: '#' :: rest2) := by
              rw [← hdw, List.takeWhile_append_dropWhile]
            have h2 : rest2 = rest2.take t ++ (b ++ c) := by
              rw [← hbc, List.take_append_drop]
            calc l = l.takeWhile isPySpace ++ ('#' :: '#' :: rest2) := h1
              _ = l.takeWhile isPySpace
                    ++ ('#' :: '#' :: (rest2.take t ++ (b ++ c))) := by rw [← h2]
              _ = l.takeWhile isPySpace ++ ['#', '#']
                    ++ (rest2.take t ++ b ++ c) := by simp [List.append_assoc]
          · intro x hx; exact List.mem_takeWhile_imp hx
          · intro hcon
            rw [hcon] at hlen
            simp at hlen
            omega
          · intro x hx
            have hsub : rest2.take t = (rest2.takeWhile isPySpace).take t := by
              have hsplit : rest2
                  = rest2.takeWhile isPySpace ++ rest2.dropWhile isPySpace := by
                rw [List.takeWhile_append_dropWhile]
              nth_rewrite 1 [hsplit]
              rw [List.take_append_eq_append_take,
                Nat.sub_eq_zero_of_le ht2, List.take_zero, List.append_nil]
            rw [hsub] at hx
            exact List.mem_takeWhile_imp (List.take_subset t _ hx)
        · rw [if_neg hh] at h'; exact absurd h' (by simp)
  · rintro ⟨w, a, b, c, hl, hw, ha, haw, hb, hnb, hc⟩
    have hassoc : a ++ b ++ c = a ++ (b ++ c) := by rw [List.append_assoc]
    have hdw : l.dropWhile isPySpace = '#' :: '#' :: (a ++ b ++ c) := by
      rw [hl, List.append_assoc, dropWhile_all_append isPySpace w _ hw]
      have hhash : isPySpace '#' = false := by decide
      simp [List.dropWhile_cons, hhash]
    rw [matchH2, hdw]
    show (if ('#' : Char) = '#' ∧ ('#' : Char) = '#'
        then h2TryT (a ++ b ++ c) (((a ++ b ++ c).takeWhile isPySpace).length)
        else none).isSome = true
    rw [if_pos ⟨rfl, rfl⟩]
    rw [h2TryT_isSome_iff]
    refine ⟨a.length, List.length_pos.mpr ha, ?_, ?_⟩
    · rw [hassoc, takeWhile_all_append isPySpace a _ haw]
      simp
    · rw [hassoc, List.drop_left]
      exact (lazyDot_isSome_iff _).mpr ⟨b, c, rfl, hb, hnb, hc⟩

theorem valFold_errors (env : ValEnv) (docs : List RawDoc) :
    ∀ st : ValState,
    (docs.foldl (validateStepT env) st).errors
      = st.errors ++ errsList env st.seen_ids docs := by
  induction docs with
  | nil => intro st; simp [errsList]
  | cons d ds ih =>
    intro st
    rw [List.foldl_cons, ih, errsList]
    simp [validateStepT, List.append_assoc]

theorem inStrSet_ok (v : Option Yaml) (s : List (List Char))
    (h : isListVal v = false) : inStrSet v s = .ok (strMem v s) := by
  cases v with
  | none => rfl
  | some y =>
    cases y with
    | str s0 => rfl
    | listStr l => simp [isListVal] at h
    | null => rfl

theorem dupIdStep_ok (seen : List (Yaml × List (List Char)))
    (path : List (List Char)) (fm : Fm)
    (h : (match fmGet fm ("id".data) with
          | some v => yamlTruthy v && isListVal (some v)
          | none => false) = false) :
    dupIdStep seen path fm
      = .ok ((match fmGet fm ("id".data) with
              | some v =>
                if yamlTruthy v then
                  match seen.find? (fun p => p.1 = v) with
                  | some p0 => [ValErr.dupId path (pyStr v) p0.2]
                  | none => []
                else []
              | none => []),
             (match fmGet fm ("id".data) with
              | some v =>
                if yamlTruthy v then
                  match seen.find? (fun p => p.1 = v) with
                  | some _ => seen
                  | none => seen ++ [(v, path)]
                else seen
              | none => seen)) := by
  rw [dupIdStep]
  cases hid : fmGet fm ("id".data) with
  | none => rfl
  | some v =>
    have h2 : (yamlTruthy v && isListVal (some v)) = false := by
      rw [hid] at h; exact h
    show (if yamlTruthy v then
            match v with
            | Yaml.listStr _ => Except.error PyErr.typeError
            | _ =>
              match seen.find? (fun p => p.1 = v) with
              | some p0 => Except.ok ([ValErr.dupId path (pyStr v) p0.2], seen)
              | none => Except.ok ([], seen ++ [(v, path)])
          else Except.ok ([], seen))
        = Except.ok
            ((if yamlTruthy v then
                match seen.find? (fun p => p.1 = v) with
                | some p0 => [ValErr.dupId path (pyStr v) p0.2]
                | none => []
              else []),
             (if yamlTruthy v then
                match seen.find? (fun p => p.1 = v) with
                | some _ => seen
                | none => seen ++ [(v, path)]
              else seen))
    by_cases ht : yamlTruthy v = true
    · rw [if_pos ht, if_pos ht, if_pos ht]
      cases v with
      | str s0 => cases hf : seen.find? (fun p => p.1 = Yaml.str s0) <;> rfl
      | listStr l => rw [ht] at h2; simp [isListVal] at h2
      | null => cases hf : seen.find? (fun p => p.1 = Yaml.null) <;> rfl
    · rw [if_neg ht, if_neg ht, if_neg ht]

theorem titleStep_ok
    (tmap : List ((Yaml × List Char) × List (List (List Char))))
    (path : List (List Char)) (fm : Fm)
    (hdom : isListVal (fmGet fm ("domain".data)) = false)
    (h : (match fmGet fm ("domain".data), fmGet fm ("title".data) with
          | some dv, some tv =>
            yamlTruthy dv && yamlTruthy tv && isListVal (some tv)
          | _, _ => false) = false) :
    titleStep tmap path fm
      = .ok (match fmGet fm ("domain".data), fmGet fm ("title".data) with
             | some dv, some tv =>
               if yamlTruthy dv ∧ yamlTruthy tv then
                 titleMapAdd tmap (dv, (pyStrip (pyStr tv)).map pyLower) path
               else tmap
             | _, _ => tmap) := by
  rw [titleStep]
  cases hd : fmGet fm ("domain".data) with
  | none => cases htl : fmGet fm ("title".data) <;> rfl
  | some dv =>
    cases htl : fmGet fm ("title".data) with
    | none => rfl
    | some tv =>
      have h2 : (yamlTruthy dv && yamlTruthy tv && isListVal (some tv))
          = false := by rw [hd, htl] at h; exact h
      have hdom2 : isListVal (some dv) = false := by rw [hd] at hdom; exact hdom
      show (if yamlTruthy dv ∧ yamlTruthy tv then
              match tv with
              | Yaml.str s =>
                match dv with
                | Yaml.listStr _ => Except.error PyErr.typeError
                | _ => Except.ok (titleMapAdd tmap (dv, (pyStrip s).map pyLower) path)
              | _ => Except.error PyErr.attributeError
            else Except.ok tmap)
          = Except.ok (if yamlTruthy dv ∧ yamlTruthy tv then
              titleMapAdd tmap (dv, (pyStrip (pyStr tv)).map pyLower) path
            else tmap)
      by_cases hb : yamlTruthy dv ∧ yamlTruthy tv
      · rw [if_pos hb, if_pos hb]
        cases tv with
        | str s0 =>
          cases dv with
          | str d0 => rfl
          | listStr l => simp [isListVal] at hdom2
          | null => rfl
        | listStr l =>
          rw [hb.1, hb.2] at h2
          simp [isListVal] at h2
        | null => simp [yamlTruthy] at hb
      · rw [if_neg hb, if_neg hb]

theorem stepNewErrors_ok (env : ValEnv)
    (seen : List (Yaml × List (List Char))) (d : RawDoc) (fm : Fm)
    (body : List Char) (hskip : ¬ skipGit d = true)
    (heq : validate_parse_doc env.yamlLoad d.raw = .ok (fm, body)) :
    stepNewErrors env seen d
      = (env.schemaErrors fm).map (ValErr.schemaError d.path)
        ++ (if strMem (fmGet fm ("domain".data)) env.allowed_domains then []
            else [.domainErr d.path (fmGet fm ("domain".data))])
        ++ (if strMem (fmGet fm ("status".data)) env.allowed_status then []
            else [.statusErr d.path (fmGet fm ("status".data))])
        ++ (if strMem (fmGet fm ("audience".data)) env.allowed_audience then []
            else [.audienceErr d.path (fmGet fm ("audience".data))])
        ++ (if env.tagMode = some ("curated".data) then
              (yamlItems (match fmGet fm ("tags".data) with
                | some v => if yamlTruthy v then v else .listStr []
                | none => .listStr [])).filterMap (fun t =>
                  if env.curated_tags.contains t then none
                  else some (ValErr.tagErr d.path t))
            else [])
        ++ (match fmGet fm ("id".data) with
            | some v =>
              if yamlTruthy v then
                match seen.find? (fun p => p.1 = v) with
                | some p0 => [.dupId d.path (pyStr v) p0.2]
                | none => []
              else []
            | none => [])
        ++ (match fmGet fm ("last_reviewed".data) with
            | some lr =>
              if yamlTruthy lr then lastReviewedErrs env.today d.path lr else []
            | none => [])
        ++ validate_no_html d.path body
        ++ (env.linkErrors d.path body).map (ValErr.linkMsg d.path) := by
  rw [stepNewErrors, if_neg hskip, heq]

theorem stepNewWarnings_ok (env : ValEnv) (d : RawDoc) (fm : Fm)
    (body : List Char) (hskip : ¬ skipGit d = true)
    (heq : validate_parse_doc env.yamlLoad d.raw = .ok (fm, body)) :
    stepNewWarnings env d
      = (if h1Search body then [] else [ValWarn.noH1 d.path]) := by
  rw [stepNewWarnings, if_neg hskip, heq]

theorem stepSeen_ok (env : ValEnv) (seen : List (Yaml × List (List Char)))
    (d : RawDoc) (fm : Fm) (body : List Char) (hskip : ¬ skipGit d = true)
    (heq : validate_parse_doc env.yamlLoad d.raw = .ok (fm, body)) :
    stepSeen env seen d
      = (match fmGet fm ("id".data) with
         | some v =>
           if yamlTruthy v then
             match seen.find? (fun p => p.1 = v) with
             | some _ => seen
             | none => seen ++ [(v, d.path)]
           else seen
         | none => seen) := by
  rw [stepSeen, if_neg hskip, heq]

theorem stepTitleMap_ok (env : ValEnv)
    (tmap : List ((Yaml × List Char) × List (List (List Char))))
    (d : RawDoc) (fm : Fm) (body : List Char) (hskip : ¬ skipGit d = true)
    (heq : validate_parse_doc env.yamlLoad d.raw = .ok (fm, body)) :
    stepTitleMap env tmap d
      = (match fmGet fm ("domain".data), fmGet fm ("title".data) with
         | some dv, some tv =>
           if yamlTruthy dv ∧ yamlTruthy tv then
             titleMapAdd tmap (dv, (pyStrip (pyStr tv)).map pyLower) d.path
           else tmap
         | _, _ => tmap) := by
  rw [stepTitleMap, if_neg hskip, heq]

theorem validateStep_total (env : ValEnv) (st : ValState) (d : RawDoc)
    (h : parsedOk env d = true) :
    validateStep env st d = .ok (validateStepT env st d) := by
  by_cases hskip : skipGit d = true
  · rw [validateStep, if_pos hskip, validateStepT, stepNewErrors,
      if_pos hskip, stepNewWarnings, if_pos hskip, stepSeen, if_pos hskip,
      stepTitleMap, if_pos hskip]
    simp
  · rw [validateStep, if_neg hskip]
    split
    next msg heq =>
      have e1 : stepNewErrors env st.seen_ids d
          = [ValErr.parseFailed d.path msg] := by
        rw [stepNewErrors, if_neg hskip, heq]
      have e2 : stepNewWarnings env d = [] := by
        rw [stepNewWarnings, if_neg hskip, heq]
      have e3 : stepSeen env st.seen_ids d = st.seen_ids := by
        rw [stepSeen, if_neg hskip, heq]
      have e4 : stepTitleMap env st.title_map d = st.title_map := by
        rw [stepTitleMap, if_neg hskip, heq]
      rw [validateStepT, e1, e2, e3, e4]
      simp
    next fm body heq =>
      have h2 : fmOk fm = true := by
        rw [parsedOk, heq] at h; exact h
      rw [fmOk] at h2
      simp only [Bool.and_eq_true, Bool.not_eq_true'] at h2
      obtain ⟨⟨⟨⟨h3, h4⟩, h5⟩, h6⟩, h7⟩ := h2
      dsimp only []
      rw [inStrSet_ok _ _ h3, inStrSet_ok _ _ h4, inStrSet_ok _ _ h5,
        dupIdStep_ok st.seen_ids d.path fm h6,
        titleStep_ok st.title_map d.path fm h3 h7]
      simp only [Bind.bind, Except.bind, pure, Except.pure]
      rw [validateStepT, stepNewErrors_ok env st.seen_ids d fm body hskip heq,
        stepNewWarnings_ok env d fm body hskip heq,
        stepSeen_ok env st.seen_ids d fm body hskip heq,
        stepTitleMap_ok env st.title_map d fm body hskip heq]
      simp [List.append_assoc]

theorem valRun_total (env : ValEnv) (ds : List RawDoc) :
    ∀ st : ValState, (∀ d ∈ ds, parsedOk env d = true) →
    valRun env st ds = .ok (ds.foldl (validateStepT env) st) := by
  induction ds with
  | nil => intro st h; rfl
  | cons d ds ih =>
    intro st h
    rw [valRun, validateStep_total env st d (h d (by simp))]
    rw [List.foldl_cons]
    exact ih _ (fun d2 hd2 => h d2 (by simp [hd2]))

theorem charListLe_total : ∀ a b : List Char,
    charListLe a b = true ∨ charListLe b a = true := by
  intro a
  induction a with
  | nil => intro b; left; rfl
  | cons x as ih =>
    intro b
    cases b with
    | nil => right; rfl
    | cons y bs =>
      rw [charListLe, charListLe]
      rcases Nat.lt_trichotomy x.toNat y.toNat with h | h | h
      · left; rw [if_pos h]
      · rw [if_neg (by omega), if_neg (by omega), if_neg (by omega),
          if_neg (by omega)]
        exact ih bs
      · right; rw [if_pos h]

theorem charListLe_trans : ∀ a b c : List Char,
    charListLe a b = true → charListLe b c = true → charListLe a c = true := by
  intro a
  induction a with
  | nil => intro b c _ _; rfl
  | cons x as ih =>
    intro b c hab hbc
    cases b with
    | nil => exact absurd hab (by simp [charListLe])
    | cons y bs =>
      cases c with
      | nil => exact absurd hbc (by simp [charListLe])
      | cons z cs =>
        rw [charListLe] at hab hbc ⊢
        rcases Nat.lt_trichotomy x.toNat y.toNat with h1 | h1 | h1 <;>
          rcases Nat.lt_trichotomy y.toNat z.toNat with h2 | h2 | h2
        all_goals
          first
          | (rw [if_pos (by omega)])
          | (rw [if_neg (by omega), if_neg (by omega)]
             rw [if_neg (by omega), if_neg (by omega)] at hab hbc
             exact ih bs cs hab hbc)
          | (exfalso
             rw [if_neg (by omega), if_pos (by omega)] at hab
             exact Bool.noConfusion hab)
          | (exfalso
             rw [if_neg (by omega), if_pos (by omega)] at hbc
             exact Bool.noConfusion hbc)

instance : IsTotal IndexEntry idxLe :=
  ⟨fun a b => charListLe_total (pyStr a.doc_id) (pyStr b.doc_id)⟩

instance : IsTrans IndexEntry idxLe :=
  ⟨fun a b c => charListLe_trans (pyStr a.doc_id) (pyStr b.doc_id)
    (pyStr c.doc_id)⟩

/-- A stable sort cannot return the input unchanged when the input has an
out-of-order pair. -/
theorem insertionSort_ne_of_not_pairwise (l : List IndexEntry)
    (h : ¬ l.Pairwise idxLe) : List.insertionSort idxLe l ≠ l := by
  intro heq
  have hs := List.sorted_insertionSort idxLe l
  rw [heq] at hs
  exact h hs

theorem buildDoc_parse_error (yl : YamlLoad) (v : List Char) (d : RawDoc)
    (e : PyErr) (h : parse_doc yl d.raw = .error e) :
    buildDoc yl v d = .error e := by
  rw [buildDoc, h]
  rfl

theorem buildDocs_cons_error (yl : YamlLoad) (v : List Char) (bad : RawDoc)
    (rest : List RawDoc) (e : PyErr) (h : buildDoc yl v bad = .error e) :
    buildDocs yl v (bad :: rest) = .error e := by
  rw [buildDocs, h]
  rfl

/-- `buildDocs` on a cons, in explicit bind form. -/
theorem buildDocs_cons (yl : YamlLoad) (v : List Char) (d : RawDoc)
    (ds : List RawDoc) :
    buildDocs yl v (d :: ds)
      = (buildDoc yl v d) >>= (fun r =>
          (buildDocs yl v ds) >>= (fun p =>
            match r with
            | none => .ok p
            | some x => .ok (x.1 ++ p.1, x.2 :: p.2))) := by
  rw [buildDocs]
  cases buildDoc yl v d with
  | error e => rfl
  | ok r =>
    cases buildDocs yl v ds with
    | error e =>
      cases r with
      | none => rfl
      | some x => rfl
    | ok p =>
      obtain ⟨p1, p2⟩ := p
      cases r with
      | none => rfl
      | some x =>
        obtain ⟨a, b⟩ := x
        rfl

theorem buildDocs_append (yl : YamlLoad) (v : List Char) :
    ∀ ds es : List RawDoc,
    buildDocs yl v (ds ++ es)
      = (buildDocs yl v ds) >>= (fun p =>
          (buildDocs yl v es) >>= (fun q =>
            .ok (p.1 ++ q.1, p.2 ++ q.2))) := by
  intro ds es
  induction ds with
  | nil =>
    rw [List.nil_append]
    show buildDocs yl v es
      = (Except.ok ([], [])) >>= (fun p =>
          (buildDocs yl v es) >>= (fun q =>
            .ok (p.1 ++ q.1, p.2 ++ q.2)))
    cases buildDocs yl v es with
    | error e => rfl
    | ok q => obtain ⟨q1, q2⟩ := q; rfl
  | cons d ds ih =>
    rw [List.cons_append, buildDocs_cons, buildDocs_cons, ih]
    cases buildDoc yl v d with
    | error e => rfl
    | ok r =>
      cases buildDocs yl v ds with
      | error e =>
        cases r with
        | none => rfl
        | some x => rfl
      | ok p =>
        cases buildDocs yl v es with
        | error e =>
          cases r with
          | none => rfl
          | some x => rfl
        | ok q =>
          obtain ⟨p1, p2⟩ := p
          obtain ⟨q1, q2⟩ := q
          cases r with
          | none => rfl
          | some x =>
            obtain ⟨a, b⟩ := x
            show Except.ok ((a ++ (p1 ++ q1)), (b :: (p2 ++ q2)))
              = Except.ok ((a ++ p1) ++ q1, (b :: p2) ++ q2)
            rw [List.append_assoc, List.cons_append]

/-- A successful, included (`status: stable`) document only emits records
and an index entry bearing its own source path; inclusion requires a
successful metadata parse and exactly-`"stable"` status. -/
theorem buildDoc_some_shape (yl : YamlLoad) (v : List Char) (d : RawDoc)
    (rs : List ChunkRec) (e : IndexEntry)
    (h : buildDoc yl v d = .ok (some (rs, e))) :
    (∀ r ∈ rs, r.source_path = d.path) ∧ e.source_path = d.path
    ∧ ∃ fm body, parse_doc yl d.raw = .ok (fm, body)
        ∧ fmGet fm ("status".data) = some (.str ("stable".data)) := by
  rw [buildDoc] at h
  cases hp : parse_doc yl d.raw with
  | error err =>
    rw [hp] at h
    exact absurd h (by simp [Bind.bind, Except.bind])
  | ok p =>
    obtain ⟨fm, body⟩ := p
    rw [hp] at h
    simp only [Bind.bind, Except.bind, pure, Except.pure] at h
    by_cases hst : fmGet fm ("status".data) = some (.str ("stable".data))
    · rw [if_neg (by simpa using hst)] at h
      cases h1 : fmReq fm ("id".data) with
      | error err => rw [h1] at h; exact absurd h (by simp)
      | ok docId =>
        rw [h1] at h
        simp only at h
        cases h2 : fmReq fm ("title".data) with
        | error err => rw [h2] at h; exact absurd h (by simp)
        | ok title =>
          rw [h2] at h
          simp only at h
          cases h3 : fmReq fm ("domain".data) with
          | error err => rw [h3] at h; exact absurd h (by simp)
          | ok domain =>
            rw [h3] at h
            simp only at h
            cases h4 : fmReq fm ("tags".data) with
            | error err => rw [h4] at h; exact absurd h (by simp)
            | ok tags =>
              rw [h4] at h
              simp only at h
              cases h5 : fmReq fm ("audience".data) with
              | error err => rw [h5] at h; exact absurd h (by simp)
              | ok audience =>
                rw [h5] at h
                simp only at h
                cases h6 : fmReq fm ("status".data) with
                | error err => rw [h6] at h; exact absurd h (by simp)
                | ok status =>
                  rw [h6] at h
                  simp only [pure, Except.pure, Except.ok.injEq,
                    Option.some.injEq, Prod.mk.injEq] at h
                  obtain ⟨hrs, he⟩ := h
                  refine ⟨?_, ?_, fm, body, rfl, hst⟩
                  · intro r hr
                    rw [← hrs] at hr
                    rw [List.mem_flatten] at hr
                    obtain ⟨piece, hpiece, hrp⟩ := hr
                    rw [List.mem_map] at hpiece
                    obtain ⟨sec, _, hsec⟩ := hpiece
                    rw [← hsec, List.mem_map] at hrp
                    obtain ⟨ip, _, hip⟩ := hrp
                    rw [← hip]
                  · rw [← he]
    · rw [if_pos (by simpa using hst)] at h
      exact absurd h (by simp [pure, Except.pure])

/-- `buildDocs` succeeds exactly when every listed document's processing
succeeds. -/
theorem buildDocs_isOk_iff (yl : YamlLoad) (v : List Char) :
    ∀ ds : List RawDoc,
    exOk (buildDocs yl v ds) = true ↔ ∀ d ∈ ds, exOk (buildDoc yl v d) = true := by
  intro ds
  induction ds with
  | nil => simp [buildDocs, exOk]
  | cons d ds ih =>
    rw [buildDocs_cons]
    constructor
    · intro h d' hd'
      cases hd : buildDoc yl v d with
      | error e => rw [hd] at h; exact absurd h (by simp [exOk, Bind.bind, Except.bind])
      | ok r =>
        rcases List.mem_cons.mp hd' with rfl | hmem
        · rw [hd]; rfl
        · refine (ih.mp ?_) d' hmem
          rw [hd] at h
          cases hds : buildDocs yl v ds with
          | error e =>
            rw [hds] at h
            cases r with
            | none => exact absurd h (by simp [exOk, Bind.bind, Except.bind])
            | some x => exact absurd h (by simp [exOk, Bind.bind, Except.bind])
          | ok p => rfl
    · intro h
      have hd := h d (List.mem_cons_self d ds)
      cases hdd : buildDoc yl v d with
      | error e => rw [hdd] at hd; exact absurd hd (by simp [exOk])
      | ok r =>
        have hds := ih.mpr (fun d' hd' => h d' (List.mem_cons_of_mem d hd'))
        cases hdds : buildDocs yl v ds with
        | error e => rw [hdds] at hds; exact absurd hds (by simp [exOk])
        | ok p =>
          cases r with
          | none => rfl
          | some x => rfl

/-- Every record and index entry of a successful run carries the source
path of a document of the processed list that was included. -/
theorem buildDocs_paths (yl : YamlLoad) (v : List Char) :
    ∀ (ds : List RawDoc) (recs : List ChunkRec) (idx : List IndexEntry),
    buildDocs yl v ds = .ok (recs, idx) →
    (∀ r ∈ recs, ∃ d' ∈ ds, r.source_path = d'.path
        ∧ ∃ x, buildDoc yl v d' = .ok (some x))
    ∧ (∀ en ∈ idx, ∃ d' ∈ ds, en.source_path = d'.path
        ∧ ∃ x, buildDoc yl v d' = .ok (some x)) := by
  intro ds
  induction ds with
  | nil =>
    intro recs idx h
    rw [buildDocs] at h
    simp only [Except.ok.injEq, Prod.mk.injEq] at h
    obtain ⟨h1, h2⟩ := h
    constructor
    · intro r hr; rw [← h1] at hr; exact absurd hr (by simp)
    · intro en hen; rw [← h2] at hen; exact absurd hen (by simp)
  | cons d ds ih =>
    intro recs idx h
    rw [buildDocs_cons] at h
    cases hd : buildDoc yl v d with
    | error e => rw [hd] at h; exact absurd h (by simp [Bind.bind, Except.bind])
    | ok r =>
      rw [hd] at h
      cases hds : buildDocs yl v ds with
      | error e =>
        rw [hds] at h
        cases r with
        | none => exact absurd h (by simp [Bind.bind, Except.bind])
        | some x => exact absurd h (by simp [Bind.bind, Except.bind])
      | ok p =>
        rw [hds] at h
        obtain ⟨hp1, hp2⟩ := ih p.1 p.2 (by rw [hds])
        cases r with
        | none =>
          simp only [Bind.bind, Except.bind, Except.ok.injEq] at h
          subst h
          constructor
          · intro r hr
            obtain ⟨d', hd', hpath, hx⟩ := hp1 r hr
            exact ⟨d', List.mem_cons_of_mem d hd', hpath, hx⟩
          · intro en hen
            obtain ⟨d', hd', hpath, hx⟩ := hp2 en hen
            exact ⟨d', List.mem_cons_of_mem d hd', hpath, hx⟩
        | some x =>
          simp only [Bind.bind, Except.bind, Except.ok.injEq, Prod.mk.injEq] at h
          obtain ⟨hr, hi⟩ := h
          obtain ⟨hshape1, hshape2, _⟩ :=
            buildDoc_some_shape yl v d x.1 x.2 (by rw [hd])
          constructor
          · intro r hrr
            rw [← hr] at hrr
            rcases List.mem_append.mp hrr with hmem | hmem
            · exact ⟨d, List.mem_cons_self d ds, hshape1 r hmem,
                x, by rw [hd]⟩
            · obtain ⟨d', hd', hpath, hx⟩ := hp1 r hmem
              exact ⟨d', List.mem_cons_of_mem d hd', hpath, hx⟩
          · intro en hen
            rw [← hi] at hen
            rcases List.mem_cons.mp hen with rfl | hmem
            · exact ⟨d, List.mem_cons_self d ds, hshape2, x, by rw [hd]⟩
            · obtain ⟨d', hd', hpath, hx⟩ := hp2 en hmem
              exact ⟨d', List.mem_cons_of_mem d hd', hpath, hx⟩

theorem mem_iter_docs (files : List RawDoc) (d : RawDoc)
    (h : d ∈ iter_docs files) : d ∈ files ∧ pathExcluded d.path = false := by
  rw [iter_docs, List.mem_filter] at h
  obtain ⟨h1, h2⟩ := h
  exact ⟨(List.perm_insertionSort pathLe files).mem_iff.mp h1, by simpa using h2⟩

theorem build_main_error (yl : YamlLoad) (arg ref sha ts : Option (List Char))
    (clock : List Char) (files : List RawDoc) (e : PyErr)
    (hbd : buildDocs yl (resolveVersion arg ref) (iter_docs files) = .error e) :
    build_corpus_main yl arg ref sha ts clock files = .error e := by
  rw [build_corpus_main, hbd]
  rfl

theorem build_main_ok (yl : YamlLoad) (arg ref sha ts : Option (List Char))
    (clock : List Char) (files : List RawDoc) (recs : List ChunkRec)
    (idx : List IndexEntry)
    (hbd : buildDocs yl (resolveVersion arg ref) (iter_docs files)
      = .ok (recs, idx)) :
    build_corpus_main yl arg ref sha ts clock files
      = .ok { records := recs
              doc_index := List.insertionSort idxLe idx
              manifest :=
                { corpus_version := resolveVersion arg ref
                  git_sha := sha.getD ("unknown".data)
                  build_timestamp_utc := pyOrStr ts clock
                  included_statuses := [("stable".data)]
                  excluded_dirs := List.insertionSort
                    (fun a b => charListLe a b = true) EXCLUDED_DIRS
                  record_count := recs.length
                  doc_count := (List.insertionSort idxLe idx).length
                  output_corpus_jsonl := ("corpus.jsonl".data)
                  output_index_json := ("index.json".data) } } := by
  rw [build_corpus_main, hbd]
  rfl

theorem build_main_ok_inv (yl : YamlLoad) (arg ref sha ts : Option (List Char))
    (clock : List Char) (files : List RawDoc) (out : BuildOut)
    (hok : build_corpus_main yl arg ref sha ts clock files = .ok out) :
    ∃ recs idx,
      buildDocs yl (resolveVersion arg ref) (iter_docs files) = .ok (recs, idx)
      ∧ out.records = recs
      ∧ out.doc_index = List.insertionSort idxLe idx := by
  cases hbd : buildDocs yl (resolveVersion arg ref) (iter_docs files) with
  | error e =>
    rw [build_main_error yl arg ref sha ts clock files e hbd] at hok
    exact absurd hok (by simp)
  | ok p =>
    obtain ⟨recs, idx⟩ := p
    rw [build_main_ok yl arg ref sha ts clock files recs idx hbd] at hok
    refine ⟨recs, idx, rfl, ?_, ?_⟩
    · rw [← Except.ok.inj hok]
    · rw [← Except.ok.inj hok]

theorem buildDocs_records_pieces (yl : YamlLoad) (v : List Char) :
    ∀ (ds : List RawDoc) (recs : List ChunkRec) (idx : List IndexEntry),
    buildDocs yl v ds = .ok (recs, idx) →
    ∃ pieces : List (List ChunkRec),
      List.Forall₂ (fun d rsd => ∃ r, buildDoc yl v d = .ok r ∧ rsd = docRecsOf r)
        ds pieces
      ∧ recs = pieces.flatten := by
  intro ds
  induction ds with
  | nil =>
    intro recs idx h
    rw [buildDocs] at h
    simp only [Except.ok.injEq, Prod.mk.injEq] at h
    exact ⟨[], List.Forall₂.nil, by rw [← h.1]; rfl⟩
  | cons d ds ih =>
    intro recs idx h
    rw [buildDocs_cons] at h
    cases hd : buildDoc yl v d with
    | error e => rw [hd] at h; exact absurd h (by simp [Bind.bind, Except.bind])
    | ok r =>
      rw [hd] at h
      cases hds : buildDocs yl v ds with
      | error e =>
        rw [hds] at h
        cases r with
        | none => exact absurd h (by simp [Bind.bind, Except.bind])
        | some x => exact absurd h (by simp [Bind.bind, Except.bind])
      | ok p =>
        rw [hds] at h
        obtain ⟨pieces, hall, hflat⟩ := ih p.1 p.2 (by rw [hds])
        cases r with
        | none =>
          simp only [Bind.bind, Except.bind, Except.ok.injEq] at h
          subst h
          refine ⟨[] :: pieces,
            List.Forall₂.cons ⟨none, hd, rfl⟩ hall, ?_⟩
          rw [List.flatten_cons, List.nil_append, ← hflat]
        | some x =>
          simp only [Bind.bind, Except.bind, Except.ok.injEq, Prod.mk.injEq] at h
          refine ⟨x.1 :: pieces,
            List.Forall₂.cons ⟨some x, hd, rfl⟩ hall, ?_⟩
          rw [List.flatten_cons, ← hflat, h.1]

/-! ## Claim theorems -/

/-- C1 (counterexample): the spec's example is wrong about the code: the
document `"# Title\n\nIntro.\n\n## A\n\nPara one.\n\nPara two.\n"` yields
FIVE chunks, not three — the H1 line and the heading line are themselves
paragraph chunks, and contents carry a trailing newline. -/
theorem C1_example_counterexample :
    (chunksForDoc ("swd.api.x.001".data)
      ("# Title\n\nIntro.\n\n## A\n\nPara one.\n\nPara two.\n".data)).length
      = 5 := by decide

/-- C1 (amended): the pipeline yields exactly these five chunks, in this
order: the root section contributes `#p:0001` = `"# Title\n"` and
`#p:0002` = `"Intro.\n"`; section `a` contributes `#p:0001` = `"## A\n"`,
`#p:0002` = `"Para one.\n"`, `#p:0003` = `"Para two.\n"` (each content
normalized to end in one line break). -/
theorem C1_example_amended :
    chunksForDoc ("swd.api.x.001".data)
      ("# Title\n\nIntro.\n\n## A\n\nPara one.\n\nPara two.\n".data)
    = [(("swd.api.x.001#h2:root#p:0001".data), ("# Title\n".data)),
       (("swd.api.x.001#h2:root#p:0002".data), ("Intro.\n".data)),
       (("swd.api.x.001#h2:a#p:0001".data), ("## A\n".data)),
       (("swd.api.x.001#h2:a#p:0002".data), ("Para one.\n".data)),
       (("swd.api.x.001#h2:a#p:0003".data), ("Para two.\n".data))] := by decide

/-- C2 (counterexample): a first document with a missing metadata block
aborts the corpus build with the uncaught `ValueError`; the remaining
documents are never processed — the build does not "report and skip" the
document as the claim states. -/
theorem C2_build_aborts_counterexample :
    build_corpus_main (fun _ => Except.ok none)
      (some ("v1".data)) none none (some ("T".data)) ("clock".data)
      [⟨[("docs".data), ("a.md".data)], ("no front matter here".data)⟩,
       ⟨[("docs".data), ("b.md".data)], ("---\nx: y\n---\nBody\n".data)⟩]
      = .error (.valueError ("Missing YAML front matter.".data)) := by decide

/-- C2 (amended): the validator records exactly the one metadata-failure
error for the document and continues the run with all remaining documents,
but the corpus build propagates the first metadata failure as an uncaught
error and aborts, processing no further documents. -/
theorem C2_metadata_failure_amended (yl : YamlLoad) (v : List Char)
    (bad : RawDoc) (rest : List RawDoc) (e : PyErr) (env : ValEnv)
    (st : ValState) (msg : List Char)
    (hbad : parse_doc yl bad.raw = .error e)
    (hskip : skipGit bad = false)
    (hvbad : validate_parse_doc env.yamlLoad bad.raw = .error msg) :
    buildDocs yl v (bad :: rest) = .error e
    ∧ valRun env st (bad :: rest)
        = valRun env { st with
            errors := st.errors ++ [ValErr.parseFailed bad.path msg] } rest := by
  constructor
  · exact buildDocs_cons_error yl v bad rest e
      (buildDoc_parse_error yl v bad e hbad)
  · rw [valRun, validateStep, if_neg (by simp [hskip]), hvbad]

/-- Witness for C2 at a concrete malformed document. -/
theorem C2_metadata_failure_witness :
    buildDocs (fun _ => Except.ok none) ("v".data)
      [⟨[("docs".data), ("a.md".data)], ("junk".data)⟩]
      = .error (.valueError ("Missing YAML front matter.".data))
    ∧ valRun ⟨(fun _ => Except.ok none), (fun _ => []), (fun _ _ => []),
          [], [], [], none, [], (0, 0, 0)⟩ initValState
        [⟨[("docs".data), ("a.md".data)], ("junk".data)⟩]
      = valRun ⟨(fun _ => Except.ok none), (fun _ => []), (fun _ _ => []),
          [], [], [], none, [], (0, 0, 0)⟩
        { initValState with
            errors := initValState.errors
              ++ [ValErr.parseFailed [("docs".data), ("a.md".data)]
                ("Missing YAML front matter bounded by '---' at top of file.".data)] }
        [] :=
  C2_metadata_failure_amended (fun _ => Except.ok none) ("v".data)
    ⟨[("docs".data), ("a.md".data)], ("junk".data)⟩ [] _
    ⟨(fun _ => Except.ok none), (fun _ => []), (fun _ _ => []),
      [], [], [], none, [], (0, 0, 0)⟩ initValState _
    (by decide) (by decide) (by decide)

/-- C3 (counterexample): two builds over the same (empty) tree with the same
explicit version and pinned timestamp but different `GITHUB_SHA` environment
values produce different manifests — "byte-identical" fails as stated. -/
theorem C3_gitsha_counterexample :
    build_corpus_main (fun _ => Except.ok none) (some ("v".data)) none
      (some ("shaA".data)) (some ("T".data)) ("c".data) []
    ≠ build_corpus_main (fun _ => Except.ok none) (some ("v".data)) none
      (some ("shaB".data)) (some ("T".data)) ("c".data) [] := by decide

/-- C3 (amended): with the same tree, explicit version, pinned timestamp AND
the same revision marker, builds are byte-identical regardless of the
clock; the corpus export and the index are moreover independent of the
revision marker, the timestamp override and the clock entirely; and the
record stream is a concatenation of per-document results, so a document's
chunk IDs and hashes do not depend on which other documents are present. -/
theorem C3_determinism_amended :
    (∀ (yl : YamlLoad) (arg ref sha : Option (List Char)) (ts : List Char)
        (c₁ c₂ : List Char) (files : List RawDoc), ts ≠ [] →
      build_corpus_main yl arg ref sha (some ts) c₁ files
        = build_corpus_main yl arg ref sha (some ts) c₂ files)
    ∧ (∀ (yl : YamlLoad) (arg ref : Option (List Char))
        (sha₁ sha₂ ts₁ ts₂ : Option (List Char)) (c₁ c₂ : List Char)
        (files : List RawDoc),
      (build_corpus_main yl arg ref sha₁ ts₁ c₁ files).map
          (fun o => (o.records, o.doc_index))
        = (build_corpus_main yl arg ref sha₂ ts₂ c₂ files).map
            (fun o => (o.records, o.doc_index)))
    ∧ (∀ (yl : YamlLoad) (v : List Char) (ds es : List RawDoc),
      buildDocs yl v (ds ++ es)
        = (buildDocs yl v ds) >>= (fun p =>
            (buildDocs yl v es) >>= (fun q =>
              .ok (p.1 ++ q.1, p.2 ++ q.2)))) := by
  refine ⟨?_, ?_, buildDocs_append⟩
  · intro yl arg ref sha ts c₁ c₂ files hts
    have hp : ∀ c : List Char, pyOrStr (some ts) c = ts := by
      intro c; rw [pyOrStr, if_neg hts]
    rw [build_corpus_main, build_corpus_main, hp c₁, hp c₂]
  · intro yl arg ref sha₁ sha₂ ts₁ ts₂ c₁ c₂ files
    cases hbd : buildDocs yl (resolveVersion arg ref) (iter_docs files) with
    | error e =>
      rw [build_main_error yl arg ref sha₁ ts₁ c₁ files e hbd,
        build_main_error yl arg ref sha₂ ts₂ c₂ files e hbd]
    | ok p =>
      obtain ⟨recs, idx⟩ := p
      rw [build_main_ok yl arg ref sha₁ ts₁ c₁ files recs idx hbd,
        build_main_ok yl arg ref sha₂ ts₂ c₂ files recs idx hbd]
      rfl

/-- Witness for C3 at a pinned timestamp and two different clocks. -/
theorem C3_determinism_witness :
    build_corpus_main (fun _ => Except.ok none) (some ("v".data)) none none
      (some ("T".data)) ("c1".data) []
    = build_corpus_main (fun _ => Except.ok none) (some ("v".data)) none none
      (some ("T".data)) ("c2".data) [] :=
  C3_determinism_amended.1 (fun _ => Except.ok none) (some ("v".data)) none
    none ("T".data) ("c1".data) ("c2".data) [] (by decide)

/-- C4: a path-excluded document (reserved or hidden directory segment), or
a parseable document whose declared status is not exactly `"stable"`, never
contributes a record or an index entry, regardless of its other content;
and the build's success never depends on excluded documents (any error of
the run comes from a non-path-excluded document's processing). -/
theorem C4_exclusion (yl : YamlLoad) (arg ref sha ts : Option (List Char))
    (clock : List Char) (files : List RawDoc) (d : RawDoc)
    (hmem : d ∈ files)
    (huniq : ∀ d' ∈ files, d'.path = d.path → d' = d)
    (hexcl : pathExcluded d.path = true
      ∨ ∀ fm body, parse_doc yl d.raw = .ok (fm, body) →
          fmGet fm ("status".data) ≠ some (.str ("stable".data))) :
    (∀ out : BuildOut,
      build_corpus_main yl arg ref sha ts clock files = .ok out →
      (∀ r ∈ out.records, r.source_path ≠ d.path)
      ∧ ∀ en ∈ out.doc_index, en.source_path ≠ d.path)
    ∧ ((∀ d' ∈ files, pathExcluded d'.path = false →
          exOk (buildDoc yl (resolveVersion arg ref) d') = true) →
        exOk (build_corpus_main yl arg ref sha ts clock files) = true) := by
  constructor
  · intro out hok
    obtain ⟨recs, idx, hbd, hrecs, hidx⟩ :=
      build_main_ok_inv yl arg ref sha ts clock files out hok
    obtain ⟨hpr, hpi⟩ := buildDocs_paths yl (resolveVersion arg ref)
      (iter_docs files) recs idx hbd
    have key : ∀ d' : RawDoc, d' ∈ iter_docs files →
        (∃ x, buildDoc yl (resolveVersion arg ref) d' = .ok (some x)) →
        d'.path ≠ d.path := by
      intro d' hd' ⟨x, hx⟩ hpath
      obtain ⟨hdm, hdexcl⟩ := mem_iter_docs files d' hd'
      rcases hexcl with hex | hex
      · rw [hpath, hex] at hdexcl
        exact Bool.noConfusion hdexcl
      · have hd'd : d' = d := huniq d' hdm hpath
        subst hd'd
        obtain ⟨_, _, fm, body, hp, hst⟩ :=
          buildDoc_some_shape yl (resolveVersion arg ref) d' x.1 x.2
            (by rw [hx])
        exact hex fm body hp hst
    constructor
    · intro r hr hpath
      rw [hrecs] at hr
      obtain ⟨d', hd', hrp, hx⟩ := hpr r hr
      exact key d' hd' hx (by rw [← hrp, hpath])
    · intro en hen hpath
      rw [hidx] at hen
      have hen' : en ∈ idx :=
        (List.perm_insertionSort idxLe idx).mem_iff.mp hen
      obtain ⟨d', hd', hrp, hx⟩ := hpi en hen'
      exact key d' hd' hx (by rw [← hrp, hpath])
  · intro h
    cases hbd : buildDocs yl (resolveVersion arg ref) (iter_docs files) with
    | ok p =>
      obtain ⟨recs, idx⟩ := p
      rw [build_main_ok yl arg ref sha ts clock files recs idx hbd]
      rfl
    | error e =>
      exfalso
      have hok : exOk (buildDocs yl (resolveVersion arg ref)
          (iter_docs files)) = true := by
        rw [buildDocs_isOk_iff]
        intro d' hd'
        obtain ⟨hdm, hdexcl⟩ := mem_iter_docs files d' hd'
        exact h d' hdm hdexcl
      rw [hbd] at hok
      exact Bool.noConfusion hok

/-- Witness for C4 at a malformed document inside a reserved directory. -/
theorem C4_exclusion_witness :
    (∀ out : BuildOut,
      build_corpus_main (fun _ => Except.ok none) (some ("v".data)) none none
        (some ("T".data)) ("c".data)
        [⟨[("docs".data), ("_drafts".data), ("x.md".data)], ("junk".data)⟩]
        = .ok out →
      (∀ r ∈ out.records,
        r.source_path ≠ [("docs".data), ("_drafts".data), ("x.md".data)])
      ∧ ∀ en ∈ out.doc_index,
        en.source_path ≠ [("docs".data), ("_drafts".data), ("x.md".data)])
    ∧ ((∀ d' ∈ [(⟨[("docs".data), ("_drafts".data), ("x.md".data)],
            ("junk".data)⟩ : RawDoc)],
          pathExcluded d'.path = false →
          exOk (buildDoc (fun _ => Except.ok none)
            (resolveVersion (some ("v".data)) none) d') = true) →
        exOk (build_corpus_main (fun _ => Except.ok none) (some ("v".data))
          none none (some ("T".data)) ("c".data)
          [⟨[("docs".data), ("_drafts".data), ("x.md".data)],
            ("junk".data)⟩]) = true) :=
  C4_exclusion (fun _ => Except.ok none) (some ("v".data)) none none
    (some ("T".data)) ("c".data) _
    ⟨[("docs".data), ("_drafts".data), ("x.md".data)], ("junk".data)⟩
    (by decide) (by decide) (Or.inl (by decide))

/-- Witness for C5: an unterminated fence at a concrete input — the two
lines after the opening delimiter are classified literal. -/
theorem C5_fence_scanner_integrity_witness :
    (regionFlags (split_code_fence_regions_lines
      [("```\n".data), ("a\n".data), ("b".data)])).drop 1
    = List.replicate 2 true :=
  (C5_fence_scanner_integrity [("```\n".data), ("a\n".data), ("b".data)]).2
    [("```\n".data)] [("a\n".data), ("b".data)] rfl (by decide) (by decide)

/-- Witness for C6: a heading-shaped line inside an unterminated fence at a
concrete input. -/
theorem C6_literal_lines_witness :
    (split_into_h2_sections ("```\n## H\n".data)).length
      = (split_into_h2_sections_lines ([("```\n".data)] ++ [])).length
    ∧ ((split_into_h2_sections ("```\n## H\n".data)).map Section.lines).flatten
      = [("```\n".data)] ++ ("## H\n".data) :: []
    ∧ (split_section_into_paragraphs
        ([("```\n".data)] ++ ("## H\n".data) :: [])).length
      = (split_section_into_paragraphs ([("```\n".data)] ++ [])).length :=
  C6_literal_lines_no_boundaries ("```\n## H\n".data)
    [("```\n".data)] [] ("## H\n".data) (by decide) (by decide) (by decide)

/-- C7 (counterexample): the line `"##  \n"` has only whitespace after the
two markers, yet the Section Segmenter starts a new section on it (the
document splits into two sections instead of one). -/
theorem C7_heading_counterexample :
    (split_into_h2_sections ("##  \n".data)).length = 2 := by decide

/-- C7 (amended): the Section Segmenter starts a new section exactly at
prose lines accepted by the heading pattern, and that pattern accepts
exactly: optional leading whitespace, exactly two markers, one or more
whitespace characters, at least one further non-newline character, then
only whitespace to the end of the line.  In particular three-plus markers
never start a section, but a line with two or more whitespace characters
after the markers (such as `"##  \n"`) does (its group strips to the empty
title). -/
theorem C7_heading_amended :
    (∀ lines : List Line, (split_into_h2_sections_lines lines).length
      = 1 + (taggedLines lines).countP startsSection)
    ∧ (∀ l : Line, (matchH2 l).isSome = true ↔ AmendedH2 l) :=
  ⟨fun lines => by rw [split_into_h2_sections_lines, sectionScan_length],
   matchH2_isSome_iff⟩

/-- Witness for C7: the heading pattern accepts `"## A\n"` via the amended
characterization. -/
theorem C7_heading_witness : (matchH2 ("## A\n".data)).isSome = true :=
  (C7_heading_amended.2 ("## A\n".data)).mpr
    ⟨[], [' '], ['A'], ['\n'], by decide, by decide, by decide, by decide,
      by decide, by decide, by decide⟩

/-- C8: the index of a successful build is the stable sort by document ID
of the emission-ordered entries (so it is sorted by ID); the export records
are exactly the concatenation, in traversal order, of each included
document's records (no re-sort); and whenever the emission order of index
entries has an out-of-order pair of IDs, the sorted index differs from the
emission order. -/
theorem C8_index_vs_export (yl : YamlLoad) (arg ref sha ts : Option (List Char))
    (clock : List Char) (files : List RawDoc)
    (recs : List ChunkRec) (idx : List IndexEntry)
    (hbd : buildDocs yl (resolveVersion arg ref) (iter_docs files)
      = .ok (recs, idx)) :
    ∃ out, build_corpus_main yl arg ref sha ts clock files = .ok out
      ∧ out.records = recs
      ∧ out.doc_index = List.insertionSort idxLe idx
      ∧ out.doc_index.Pairwise idxLe
      ∧ (¬ idx.Pairwise idxLe → out.doc_index ≠ idx)
      ∧ ∃ pieces : List (List ChunkRec),
          List.Forall₂ (fun d rsd =>
            ∃ r, buildDoc yl (resolveVersion arg ref) d = .ok r
              ∧ rsd = docRecsOf r) (iter_docs files) pieces
          ∧ recs = pieces.flatten := by
  refine ⟨_, build_main_ok yl arg ref sha ts clock files recs idx hbd,
    rfl, rfl, ?_, ?_, ?_⟩
  · exact List.sorted_insertionSort idxLe idx
  · intro hnp
    exact insertionSort_ne_of_not_pairwise idx hnp
  · exact buildDocs_records_pieces yl (resolveVersion arg ref)
      (iter_docs files) recs idx hbd

/-- Witness for C8 at the empty tree. -/
theorem C8_index_vs_export_witness :
    ∃ out, build_corpus_main (fun _ => Except.ok none) (some ("v".data)) none
        none (some ("T".data)) ("c".data) [] = .ok out
      ∧ out.records = []
      ∧ out.doc_index = List.insertionSort idxLe []
      ∧ out.doc_index.Pairwise idxLe
      ∧ (¬ ([] : List IndexEntry).Pairwise idxLe → out.doc_index ≠ [])
      ∧ ∃ pieces : List (List ChunkRec),
          List.Forall₂ (fun d rsd =>
            ∃ r, buildDoc (fun _ => Except.ok none)
                (resolveVersion (some ("v".data)) none) d = .ok r
              ∧ rsd = docRecsOf r) (iter_docs []) pieces
          ∧ [] = pieces.flatten :=
  C8_index_vs_export (fun _ => Except.ok none) (some ("v".data)) none none
    (some ("T".data)) ("c".data) [] [] [] (by decide)

/-- C9 (counterexample): a parseable document whose `domain` value is a
list makes `domain not in allowed_domains` hash an unhashable value
(validate_docs.py:212): the validator raises an uncaught `TypeError` and
aborts with nothing reported — the run never reaches the error-report and
exit-code decision, so the for-every-tree exit contract fails. -/
theorem C9_exit_contract_counterexample :
    validate_docs_main
      ⟨(fun _ => Except.ok (some [(("domain".data), Yaml.listStr [])])),
        (fun _ => []), (fun _ _ => []), [], [], [], none, [], (0, 0, 0)⟩
      [⟨[("docs".data), ("a.md".data)], ("---\nd\n---\nb".data)⟩]
      = .error PyErr.typeError := by decide

/-- C9 (amended): on every tree in which no parseable document carries a
list-valued domain, status or audience, a truthy list-valued id, or a
truthy non-string title (the values whose checks raise an uncaught
`TypeError`/`AttributeError`), the run completes: the exit code is 0
exactly when the collected error list is empty (warnings are irrelevant
to it), and over any traversal split the error list decomposes as the
first part's errors followed by the errors the remaining documents
contribute from the carried `seen_ids` state — every parseable document
is checked and its errors collected, with the single pass/fail decision
taken only at the end. -/
theorem C9_exit_contract_amended (env : ValEnv) (files : List RawDoc)
    (hok : ∀ d ∈ iter_markdown_files files, parsedOk env d = true) :
    ∃ r, validate_docs_main env files = .ok r
      ∧ (r.exitCode = 0 ↔ r.errors = [])
      ∧ (∀ pre post, iter_markdown_files files = pre ++ post →
          r.errors
            = (pre.foldl (validateStepT env) initValState).errors
              ++ errsList env
                  (pre.foldl (validateStepT env) initValState).seen_ids post) := by
  have hrun := valRun_total env (iter_markdown_files files) initValState hok
  refine ⟨⟨((iter_markdown_files files).foldl (validateStepT env) initValState).errors, ((iter_markdown_files files).foldl (validateStepT env) initValState).warnings ++ collisionWarnings ((iter_markdown_files files).foldl (validateStepT env) initValState).title_map, if ((iter_markdown_files files).foldl (validateStepT env) initValState).errors = [] then 0 else 1⟩, ?_, ?_, ?_⟩
  · rw [validate_docs_main, hrun]
  · show (if ((iter_markdown_files files).foldl (validateStepT env)
        initValState).errors = [] then 0 else 1) = 0
      ↔ ((iter_markdown_files files).foldl (validateStepT env)
        initValState).errors = []
    by_cases h : ((iter_markdown_files files).foldl (validateStepT env)
        initValState).errors = []
    · rw [if_pos h]; simp [h]
    · rw [if_neg h]; simp [h]
  · intro pre post hsplit
    show ((iter_markdown_files files).foldl (validateStepT env)
        initValState).errors = _
    rw [hsplit, List.foldl_append, valFold_errors]

/-- Witness for C9 at a two-document tree (one malformed — caught and
skipped — and one parseable with exception-free metadata). -/
theorem C9_exit_contract_witness :
    ∃ r, validate_docs_main
        ⟨(fun _ => Except.ok none), (fun _ => []), (fun _ _ => []),
          [], [], [], none, [], (0, 0, 0)⟩
        [⟨[("docs".data), ("a.md".data)], ("junk".data)⟩,
         ⟨[("docs".data), ("b.md".data)], ("---\nx: 1\n---\nBody\n".data)⟩]
        = .ok r
      ∧ (r.exitCode = 0 ↔ r.errors = [])
      ∧ (∀ pre post,
          iter_markdown_files
              [⟨[("docs".data), ("a.md".data)], ("junk".data)⟩,
               ⟨[("docs".data), ("b.md".data)],
                 ("---\nx: 1\n---\nBody\n".data)⟩] = pre ++ post →
          r.errors
            = (pre.foldl (validateStepT
                  ⟨(fun _ => Except.ok none), (fun _ => []), (fun _ _ => []),
                    [], [], [], none, [], (0, 0, 0)⟩) initValState).errors
              ++ errsList
                  ⟨(fun _ => Except.ok none), (fun _ => []), (fun _ _ => []),
                    [], [], [], none, [], (0, 0, 0)⟩
                  (pre.foldl (validateStepT
                      ⟨(fun _ => Except.ok none), (fun _ => []),
                        (fun _ _ => []), [], [], [], none, [], (0, 0, 0)⟩)
                    initValState).seen_ids post) :=
  C9_exit_contract_amended
    ⟨(fun _ => Except.ok none), (fun _ => []), (fun _ _ => []),
      [], [], [], none, [], (0, 0, 0)⟩
    [⟨[("docs".data), ("a.md".data)], ("junk".data)⟩,
     ⟨[("docs".data), ("b.md".data)], ("---\nx: 1\n---\nBody\n".data)⟩]
    (by decide)

/-- C10: `slugify` is idempotent; its result is non-empty, over
`[a-z0-9-]`, with no two adjacent hyphens and no leading or trailing
hyphen; the empty and all-symbol inputs map to `"root"`; and every section
slug (hence every slug embedded in a chunk ID) has this shape. -/
theorem C10_slugify_shape (s : List Char) :
    slugify (slugify s) = slugify s
    ∧ SlugShape (slugify s)
    ∧ slugify [] = rootSlug
    ∧ ((∀ c ∈ s, isSlugChar (pyLower c) = false) → slugify s = rootSlug)
    ∧ (∀ body : List Char, ∀ sec ∈ split_into_h2_sections body,
        SlugShape sec.h2_slug) := by
  refine ⟨slugify_idem s, slugify_shape s, by decide, slugify_all_nonslug s, ?_⟩
  intro body sec hsec
  rw [split_into_h2_sections, split_into_h2_sections_lines] at hsec
  exact sectionScan_slug_shape _ ⟨rootSlug, rootSlug, []⟩ rootSlug_shape sec hsec

/-- Witness for C10: an all-symbol input maps to `"root"`. -/
theorem C10_slugify_shape_witness : slugify ("!!".data) = rootSlug :=
  (C10_slugify_shape ("!!".data)).2.2.2.1 (by decide)

end LlmDocs
